import Mathlib

/-!
Verification development for the qrls_bot Discord roster bot.

The definitions below are shallow embeddings of the Python source under
src/: the Google-Sheet snapshot is a list of rows of strings, the
data/waivers.json store is an association list from string keys to
records, times are integers (an abstract total order standing for
datetimes), and Discord-dependent checks (roles, channels, guild
membership) are explicit inputs.  Each cog keeps the control flow of the
corresponding Python function: sequences of early-return guards become
chained matches/ifs returning an outcome value, and every effect (sheet
cell write, role change, file save) is returned as data.
-/

namespace QRLS

/-- Whitespace test used by the trim model (space, tab, newline,
carriage return — the characters Python strip() removes in the data
this bot handles). -/
def isSpaceChar (c : Char) : Bool :=
  c = ' ' ∨ c = '\t' ∨ c = '\n' ∨ c = '\r'

/-- Drop leading whitespace characters. -/
def dropSpaceChars : List Char → List Char
  | [] => []
  | c :: rest => if isSpaceChar c then dropSpaceChars rest else c :: rest

/-- Python _normalize: strip surrounding whitespace of a string
(None is not representable here; callers pass the empty string).
Implemented over the character list so that it evaluates inside the
kernel. -/
def normalize (s : String) : String :=
  ⟨(dropSpaceChars ((dropSpaceChars s.data).reverse)).reverse⟩

/-- ASCII lowercase of one character (Python str.lower on the ASCII
team names this bot compares). -/
def lowerChar (c : Char) : Char :=
  if 'A' ≤ c ∧ c ≤ 'Z' then Char.ofNat (c.toNat + 32) else c

/-- ASCII lowercase of a string. -/
def lowerStr (s : String) : String := ⟨s.data.map lowerChar⟩

/-- One decimal digit. -/
def digitVal (c : Char) : Option Nat :=
  if '0' ≤ c ∧ c ≤ '9' then some (c.toNat - '0'.toNat) else none

/-- Decimal digits to a number, all characters must be digits. -/
def digitsToNat : List Char → Nat → Option Nat
  | [], acc => some acc
  | c :: rest, acc =>
    match digitVal c with
    | none => none
    | some d => digitsToNat rest (acc * 10 + d)

/-- Python int(...) on an already stripped decimal string: optional
sign followed by at least one digit, ValueError modeled as none. -/
def strToInt : String → Option Int
  | s =>
    match s.data with
    | [] => none
    | '-' :: rest =>
      (match rest with
       | [] => none
       | _ => (digitsToNat rest 0).map (fun n => -(n : Int)))
    | l => (digitsToNat l 0).map (fun n => (n : Int))

/-- Column A (index 0) holds the Discord ID. -/
def COL_DISCORD_ID : Nat := 0

/-- Column D (index 3) holds the team name. -/
def COL_TEAM : Nat := 3

/-- A sheet snapshot: get_all_values, a list of rows of cell strings. -/
abbrev Sheet := List (List String)

/-- Helper for _find_row_index_by_discord_id: 1-based scan. -/
def findRowAux (target : String) : Nat → Sheet → Option Nat
  | _, [] => none
  | i, row :: rest =>
      if row.length > COL_DISCORD_ID ∧ normalize (row.getD COL_DISCORD_ID "") = target
      then some i
      else findRowAux target (i + 1) rest

/-- _find_row_index_by_discord_id: first 1-based row whose column A,
trimmed, equals the decimal string of the Discord id. -/
def findRowIndexByDiscordId (values : Sheet) (discordId : Int) : Option Nat :=
  findRowAux (toString discordId) 1 values

/-- _get_team_from_row: trimmed column D of the given 1-based row,
empty when the row is too short. -/
def getTeamFromRow (values : Sheet) (rowIndex1 : Nat) : String :=
  match values.get? (rowIndex1 - 1) with
  | none => ""
  | some row => if row.length > COL_TEAM then normalize (row.getD COL_TEAM "") else ""

/-- _is_waivers_team: trimmed, lowercased comparison with "waivers". -/
def isWaiversTeam (value : String) : Bool :=
  lowerStr (normalize value) = "waivers"

/-- _is_free_agent_team (and add.py _is_free_agent): trimmed,
lowercased comparison with "free agent". -/
def isFreeAgentTeam (value : String) : Bool :=
  lowerStr (normalize value) = "free agent"

/-- Python truthiness of an optional integer: env-derived ids are used
as "if not self.x" checks, so a missing id and the id 0 are both falsy. -/
def optTruthy : Option Int → Bool
  | none => false
  | some n => n ≠ 0

/-- A single cell write performed through ws.update_cell
(1-based row and column). -/
structure CellWrite where
  row : Nat
  col : Nat
  value : String
deriving DecidableEq, Repr

/-- Confirmation state stored in a waiver claim: the Python values
None, True, False or the sentinel string PROMPTED. -/
inductive ConfirmState where
  | cnull
  | cbool (b : Bool)
  | cprompted
deriving DecidableEq, Repr

/-- A claim object inside a waivers.json record.  Option fields model
keys that may be absent or hold an unusable type: some v means the key
is present with the expected type. -/
structure WClaim where
  team_name : Option String
  team_rank : Option Int
  claimed_by_id : Option Int
  claimed_at : Option String
  origin_channel_id : Option Int
  confirmed : ConfirmState
  confirmed_at : Option String
deriving DecidableEq, Repr

/-- A waivers.json record.  Timestamps are kept as the stored ISO
strings; parsing is a parameter of the functions that need it. -/
structure WRecord where
  guild_id : Option Int
  player_id : Option Int
  requested_at : Option String
  expires_at : Option String
  original_team : Option String
  dropped_by_id : Option Int
  claim : Option WClaim
deriving DecidableEq, Repr

/-- The top-level waivers.json object: player-id string to record. -/
abbrev WMap := List (String × WRecord)

/-- Dictionary lookup data.get(key). -/
def mapGet (data : WMap) (key : String) : Option WRecord :=
  match data.find? (fun kv => kv.1 = key) with
  | none => none
  | some kv => some kv.2

/-- Dictionary update data[key] = rec (replaces in place, appends when
the key is new, preserving insertion order like a Python dict). -/
def mapSet (data : WMap) (key : String) (rec : WRecord) : WMap :=
  if data.any (fun kv => kv.1 = key) then
    data.map (fun kv => if kv.1 = key then (key, rec) else kv)
  else
    data ++ [(key, rec)]

/-- Dictionary removal data.pop(key, None). -/
def mapDel (data : WMap) (key : String) : WMap :=
  data.filter (fun kv => kv.1 ≠ key)

end QRLS

namespace QRLS.Drop

open QRLS

/-- drop.py _record_waiver: create or overwrite the waiver record for
the player, holding exactly guild_id, player_id, requested_at,
expires_at, original_team and dropped_by_id, and no claim. -/
def recordWaiver (data : WMap) (guildId playerId : Int)
    (requestedAtIso expiresAtIso : String) (originalTeam : String)
    (droppedById : Int) : WMap :=
  mapSet data (toString playerId)
    { guild_id := some guildId
      player_id := some playerId
      requested_at := some requestedAtIso
      expires_at := some expiresAtIso
      original_team := some originalTeam
      dropped_by_id := some droppedById
      claim := none }

/-- Discord-side context of a /drop invocation; each field is the
information the corresponding Python guard inspects. -/
structure DropCtx where
  captainsRoleId : Option Int
  transactionsCategoryId : Option Int
  pendingChannelId : Option Int
  adminsRoleId : Option Int
  waiversRoleId : Option Int
  userIsMember : Bool
  userRoles : List Int
  channelIsTextOrThread : Bool
  baseChannelIsText : Bool
  baseCategoryId : Option Int
  freeAgentRoleIdOk : Bool
  teamRoleIdOkOf : String → Bool
  pendingChannelIsText : Bool
  sheet : Sheet
  captainId : Int
  playerId : Int

/-- Outcome of the /drop command body: either an early-return rejection
(tagged with the step that rejected) or a pending approval request
carrying the data the ApprovalView is constructed with. -/
inductive DropCmdOutcome where
  | rejected (step : String)
  | pending (captainId : Int) (captainTeam : String) (playerId : Int)
deriving DecidableEq, Repr

/-- drop.py Drop.drop, the env/permission/location guard block before
the sheet is opened: ENV_VALIDATE (five ids), CAPTAIN_CHECK (member
and captain role) and CATEGORY_CHECK; returns the rejecting step. -/
def dropDiscordGuards (ctx : DropCtx) : Option String :=
  if ¬ optTruthy ctx.captainsRoleId then some "ENV_VALIDATE" else
  if ¬ optTruthy ctx.transactionsCategoryId then some "ENV_VALIDATE" else
  if ¬ optTruthy ctx.pendingChannelId then some "ENV_VALIDATE" else
  if ¬ optTruthy ctx.adminsRoleId then some "ENV_VALIDATE" else
  if ¬ optTruthy ctx.waiversRoleId then some "ENV_VALIDATE" else
  if ¬ ctx.userIsMember then some "CAPTAIN_CHECK" else
  if ¬ ctx.userRoles.any (fun r => some r = ctx.captainsRoleId) then some "CAPTAIN_CHECK" else
  if ¬ ctx.channelIsTextOrThread then some "CATEGORY_CHECK" else
  if ¬ (ctx.baseChannelIsText ∧ ctx.baseCategoryId = ctx.transactionsCategoryId) then
    some "CATEGORY_CHECK" else
  none

/-- drop.py Drop.drop, the /drop slash command body: the guard chain up
to posting the pending approval request.  No sheet cell is written and
no waiver record is created by the command itself. -/
def dropCommand (ctx : DropCtx) : DropCmdOutcome :=
  match dropDiscordGuards ctx with
  | some s => .rejected s
  | none =>
  if ctx.sheet.isEmpty then .rejected "READ_ALL" else
  match findRowIndexByDiscordId ctx.sheet ctx.captainId with
  | none => .rejected "FIND_CAPTAIN_ROW"
  | some captainRow =>
    let captainTeam := getTeamFromRow ctx.sheet captainRow
    if captainTeam = "" then .rejected "FIND_CAPTAIN_ROW" else
    if ¬ ctx.freeAgentRoleIdOk then .rejected "TEAM_INFO_FA" else
    if ¬ ctx.teamRoleIdOkOf captainTeam then .rejected "TEAM_INFO_TEAM" else
    match findRowIndexByDiscordId ctx.sheet ctx.playerId with
    | none => .rejected "FIND_PLAYER_ROW"
    | some playerRow =>
      let playerTeam := getTeamFromRow ctx.sheet playerRow
      if normalize playerTeam ≠ normalize captainTeam then .rejected "VALIDATE_OWN_ROSTER" else
      if ¬ ctx.pendingChannelIsText then .rejected "POST_PENDING_CHANNEL" else
      .pending ctx.captainId captainTeam ctx.playerId

/-- Result of the Approve button of drop.py ApprovalView: outcome tag,
sheet writes performed, and the waivers map after the handler. -/
structure DropApproveResult where
  ok : Bool
  step : String
  writes : List CellWrite
  waivers : WMap
deriving Repr

/-- drop.py ApprovalView.approve: re-read the sheet, re-validate the
captain and player, and on success set the player team cell to Waivers
and record the waiver window (requested_at + 2 days) in waivers.json. -/
def dropApprove (sheet : Sheet) (captainId playerId : Int)
    (requestedAtIso : String) (parse : String → Option Int)
    (renderIso : Int → String) (now : Int) (guildId : Int)
    (data : WMap) : DropApproveResult :=
  match findRowIndexByDiscordId sheet captainId with
  | none => ⟨false, "CAPTAIN_NOT_FOUND", [], data⟩
  | some captainRow =>
    let captainTeamCurrent := getTeamFromRow sheet captainRow
    if captainTeamCurrent = "" then ⟨false, "CAPTAIN_TEAM_BLANK", [], data⟩ else
    match findRowIndexByDiscordId sheet playerId with
    | none => ⟨false, "PLAYER_NOT_FOUND", [], data⟩
    | some playerRow =>
      let playerTeamCurrent := getTeamFromRow sheet playerRow
      if normalize playerTeamCurrent ≠ normalize captainTeamCurrent then
        ⟨false, "PLAYER_NOT_ON_CAPTAIN_TEAM", [], data⟩
      else
        let requestedAt := (parse requestedAtIso).getD now
        let expiresAt := requestedAt + 2 * 86400
        let data2 := recordWaiver data guildId playerId (renderIso requestedAt)
          (renderIso expiresAt) captainTeamCurrent captainId
        ⟨true, "APPLIED", [⟨playerRow, COL_TEAM + 1, "Waivers"⟩], data2⟩

end QRLS.Drop

namespace QRLS.Add

open QRLS

/-- add.py _count_team: rows whose trimmed column D equals the team
name exactly (case-sensitive, unlike the waiverclaim counter). -/
def countTeam (values : Sheet) (teamName : String) : Nat :=
  (values.filter
    (fun row => row.length > COL_TEAM ∧ normalize (row.getD COL_TEAM "") = teamName)).length

/-- Discord-side context of an /add invocation. -/
structure AddCtx where
  captainsRoleId : Option Int
  transactionsCategoryId : Option Int
  pendingChannelId : Option Int
  adminsRoleId : Option Int
  userIsMember : Bool
  userRoles : List Int
  channelIsTextOrThread : Bool
  baseChannelIsText : Bool
  baseCategoryId : Option Int
  freeAgentRoleIdOk : Bool
  teamRoleIdOkOf : String → Bool
  pendingChannelIsText : Bool
  sheet : Sheet
  captainId : Int
  playerId : Int

/-- Outcome of the /add command body. -/
inductive AddCmdOutcome where
  | rejected (step : String)
  | pending (captainId : Int) (captainTeam : String) (playerId : Int)
deriving DecidableEq, Repr

/-- The captain team the command derives from the sheet: the trimmed
column D of the captain row, when the row exists and the team is not
blank. -/
def captainTeamOf (sheet : Sheet) (captainId : Int) : Option String :=
  match findRowIndexByDiscordId sheet captainId with
  | none => none
  | some row =>
    let t := getTeamFromRow sheet row
    if t = "" then none else some t

/-- add.py Add.add, the env/permission/location guard block of the
command body before the sheet is opened. -/
def addDiscordGuards (ctx : AddCtx) : Option String :=
  if ¬ optTruthy ctx.captainsRoleId then some "ENV_VALIDATE" else
  if ¬ optTruthy ctx.transactionsCategoryId then some "ENV_VALIDATE" else
  if ¬ optTruthy ctx.pendingChannelId then some "ENV_VALIDATE" else
  if ¬ optTruthy ctx.adminsRoleId then some "ENV_VALIDATE" else
  if ¬ ctx.userIsMember then some "CAPTAIN_CHECK" else
  if ¬ ctx.userRoles.any (fun r => some r = ctx.captainsRoleId) then some "CAPTAIN_CHECK" else
  if ¬ ctx.channelIsTextOrThread then some "CATEGORY_CHECK" else
  if ¬ (ctx.baseChannelIsText ∧ ctx.baseCategoryId = ctx.transactionsCategoryId) then
    some "CATEGORY_CHECK" else
  none

/-- add.py Add.add, the /add slash command body.  The command only
validates and posts a pending approval request; it never writes a
sheet cell itself. -/
def addCommand (ctx : AddCtx) : AddCmdOutcome :=
  match addDiscordGuards ctx with
  | some s => .rejected s
  | none =>
  if ctx.sheet.isEmpty then .rejected "READ_ALL" else
  match captainTeamOf ctx.sheet ctx.captainId with
  | none => .rejected "FIND_CAPTAIN_ROW"
  | some captainTeam =>
    if ¬ ctx.freeAgentRoleIdOk then .rejected "TEAM_INFO_FA" else
    if ¬ ctx.teamRoleIdOkOf captainTeam then .rejected "TEAM_INFO_TEAM" else
    match findRowIndexByDiscordId ctx.sheet ctx.playerId with
    | none => .rejected "FIND_PLAYER_ROW"
    | some playerRow =>
      let playerTeam := getTeamFromRow ctx.sheet playerRow
      if ¬ isFreeAgentTeam playerTeam then .rejected "VALIDATE_FREE_AGENT" else
      if countTeam ctx.sheet captainTeam ≥ 4 then .rejected "COUNT_ROSTER" else
      if ¬ ctx.pendingChannelIsText then .rejected "POST_PENDING_CHANNEL" else
      .pending ctx.captainId captainTeam ctx.playerId

/-- Result of the Approve button of add.py ApprovalView. -/
structure AddApproveResult where
  ok : Bool
  step : String
  writes : List CellWrite
deriving DecidableEq, Repr

/-- add.py ApprovalView.approve: re-read the sheet and re-validate,
then set the player team cell (column D) to the captain current team
only when the player is still a Free Agent and the roster count is
below 4. -/
def addApprove (sheet : Sheet) (captainId playerId : Int) : AddApproveResult :=
  match findRowIndexByDiscordId sheet captainId with
  | none => ⟨false, "CAPTAIN_NOT_FOUND", []⟩
  | some captainRow =>
    let captainTeamCurrent := getTeamFromRow sheet captainRow
    if captainTeamCurrent = "" then ⟨false, "CAPTAIN_TEAM_BLANK", []⟩ else
    match findRowIndexByDiscordId sheet playerId with
    | none => ⟨false, "PLAYER_NOT_FOUND", []⟩
    | some playerRow =>
      let playerTeamCurrent := getTeamFromRow sheet playerRow
      if ¬ isFreeAgentTeam playerTeamCurrent then ⟨false, "PLAYER_NOT_FREE_AGENT", []⟩ else
      if countTeam sheet captainTeamCurrent ≥ 4 then ⟨false, "ROSTER_FULL", []⟩ else
      ⟨true, "APPLIED", [⟨playerRow, COL_TEAM + 1, captainTeamCurrent⟩]⟩

end QRLS.Add

namespace QRLS.WaiverClaim

open QRLS

/-- waiverclaim.py _count_team_players: rows whose trimmed column D
equals the team name case-insensitively. -/
def countTeamPlayers (values : Sheet) (teamName : String) : Nat :=
  (values.filter
    (fun row => row.length > COL_TEAM ∧
      lowerStr (normalize (row.getD COL_TEAM "")) = lowerStr (normalize teamName))).length

/-- The waiver order mapping: lowercased team name to rank. -/
abbrev OrderMap := List (String × Int)

/-- Dictionary write for the order map (later rows overwrite earlier). -/
def orderSet (m : OrderMap) (key : String) (rank : Int) : OrderMap :=
  if m.any (fun kv => kv.1 = key) then
    m.map (fun kv => if kv.1 = key then (key, rank) else kv)
  else
    m ++ [(key, rank)]

/-- Dictionary lookup for the order map. -/
def orderGet (m : OrderMap) (key : String) : Option Int :=
  match m.find? (fun kv => kv.1 = key) with
  | none => none
  | some kv => some kv.2

/-- waiverclaim.py _load_waiver_order_map over the A1:B16 values of the
waiver order worksheet: column A team name, column B integer rank;
blank or unparsable rows are skipped. -/
def loadWaiverOrderMap (rows : Sheet) : OrderMap :=
  rows.foldl
    (fun acc row =>
      if row.isEmpty then acc else
      let team := if row.length > 0 then normalize (row.getD 0 "") else ""
      let rankRaw := if row.length > 1 then normalize (row.getD 1 "") else ""
      if team = "" ∨ rankRaw = "" then acc else
      match strToInt rankRaw with
      | none => acc
      | some rank => orderSet acc (lowerStr team) rank)
    []

/-- waiverclaim.py _set_claim: replace the claim object of the record
with the new claimant data (confirmed None, confirmed_at None) and
store the record back under the player key. -/
def setClaim (data : WMap) (rec : WRecord) (playerId : Int)
    (teamName : String) (teamRank : Int) (claimedById : Int)
    (originChannelId : Int) (claimedAtIso : String) : WMap :=
  mapSet data (toString playerId)
    { rec with claim := some (WClaim.mk (some teamName) (some teamRank)
        (some claimedById) (some claimedAtIso) (some originChannelId)
        .cnull none) }

/-- waiverclaim.py _clear_claim: drop the claim key of the record. -/
def clearClaim (data : WMap) (rec : WRecord) (playerId : Int) : WMap :=
  mapSet data (toString playerId) { rec with claim := none }

/-- Discord-side context of a /waiverclaim invocation. -/
structure WCCtx where
  userIsMember : Bool
  captainsRoleId : Option Int
  transactionsCategoryId : Option Int
  waiversRoleId : Option Int
  userRoles : List Int
  channelIsTextOrThread : Bool
  baseChannelIsText : Bool
  baseCategoryId : Option Int
  originChannelId : Int
  waiversRoleInGuild : Bool
  playerHasWaiversRole : Bool
  sheet : Sheet
  orderRows : Sheet
  orderReadFails : Bool
  userId : Int
  playerId : Int

/-- The data the command has in hand when it reaches the
COMPARE_EXISTING_CLAIM step. -/
structure CompareCtx where
  claimantTeam : String
  claimantRank : Int
  record : WRecord
deriving DecidableEq, Repr

/-- waiverclaim.py WaiverClaim.waiverclaim, env/permission/location
and target-role guard block of the command body. -/
def wcDiscordGuards (ctx : WCCtx) : Option String :=
  if ¬ ctx.userIsMember then some "ENV_VALIDATE_MEMBER" else
  if ¬ optTruthy ctx.captainsRoleId then some "ENV_VALIDATE_CAPTAINS" else
  if ¬ optTruthy ctx.transactionsCategoryId then some "ENV_VALIDATE_CATEGORY" else
  if ¬ optTruthy ctx.waiversRoleId then some "ENV_VALIDATE_WAIVERS" else
  if ¬ ctx.userRoles.any (fun r => some r = ctx.captainsRoleId) then some "CAPTAIN_CHECK" else
  if ¬ ctx.channelIsTextOrThread then some "CATEGORY_CHECK" else
  if ¬ (ctx.baseChannelIsText ∧ ctx.baseCategoryId = ctx.transactionsCategoryId) then
    some "CATEGORY_CHECK" else
  if ¬ ctx.waiversRoleInGuild then some "TARGET_ROLE_CHECK" else
  if ¬ ctx.playerHasWaiversRole then some "TARGET_ROLE_CHECK" else
  none

/-- waiverclaim.py WaiverClaim.waiverclaim, sheet/order/record stages
of the guard chain before the claim comparison. -/
def wcPrelude (ctx : WCCtx) (data : WMap) (parse : String → Option Int)
    (now : Int) : Except String CompareCtx :=
  match wcDiscordGuards ctx with
  | some s => .error s
  | none =>
  if ctx.sheet.isEmpty then .error "OPEN_ROSTER_SHEET" else
  match findRowIndexByDiscordId ctx.sheet ctx.playerId with
  | none => .error "FIND_TARGET_ROW"
  | some targetRow =>
    let targetTeam := getTeamFromRow ctx.sheet targetRow
    if ¬ isWaiversTeam targetTeam then .error "TARGET_NOT_WAIVERS" else
    match findRowIndexByDiscordId ctx.sheet ctx.userId with
    | none => .error "FIND_CLAIMANT_ROW"
    | some claimantRow =>
      let claimantTeam := getTeamFromRow ctx.sheet claimantRow
      if claimantTeam = "" then .error "CLAIMANT_TEAM_BLANK" else
      if isFreeAgentTeam claimantTeam ∨ isWaiversTeam claimantTeam then
        .error "CLAIMANT_NOT_ON_TEAM" else
      if ctx.orderReadFails then .error "LOAD_WAIVER_ORDER" else
      match orderGet (loadWaiverOrderMap ctx.orderRows) (lowerStr claimantTeam) with
      | none => .error "CLAIMANT_RANK_MISSING"
      | some claimantRank =>
        match mapGet data (toString ctx.playerId) with
        | none => .error "LOAD_WAIVER_RECORD"
        | some rec =>
          match parse ((rec.expires_at.getD "")) with
          | none => .error "EXPIRES_INVALID"
          | some expiresAt =>
            if expiresAt ≤ now then .error "ALREADY_EXPIRED" else
            .ok ⟨claimantTeam, claimantRank, rec⟩

/-- Outcome of the /waiverclaim command. -/
inductive WCOutcome where
  | rejected (step : String)
  | placed (team : String) (rank : Int)
  | replaced (team : String) (rank : Int)
deriving DecidableEq, Repr

/-- waiverclaim.py WaiverClaim.waiverclaim: full command body.  After
the guards, an existing claim with a smaller rank rejects the
invocation, a strictly larger rank is replaced through _set_claim, an
equal rank rejects, and with no existing claim the claim is placed. -/
def waiverclaimCmd (ctx : WCCtx) (data : WMap) (parse : String → Option Int)
    (renderIso : Int → String) (now : Int) : WCOutcome × WMap :=
  match wcPrelude ctx data parse now with
  | .error s => (.rejected s, data)
  | .ok p =>
    match p.record.claim with
    | some c =>
      let existingRank := c.team_rank.getD 9999
      if existingRank < p.claimantRank then (.rejected "HIGHER_CLAIM_EXISTS", data)
      else if p.claimantRank < existingRank then
        (.replaced p.claimantTeam p.claimantRank,
         setClaim data p.record ctx.playerId p.claimantTeam p.claimantRank
           ctx.userId ctx.originChannelId (renderIso now))
      else (.rejected "EQUAL_PRIORITY_EXISTS", data)
    | none =>
      (.placed p.claimantTeam p.claimantRank,
       setClaim data p.record ctx.playerId p.claimantTeam p.claimantRank
         ctx.userId ctx.originChannelId (renderIso now))

end QRLS.WaiverClaim

namespace QRLS.WaiverClaim

open QRLS

/-- A Discord role mutation requested through remove_roles/add_roles. -/
inductive RoleOp where
  | removeWaivers
  | removeFreeAgent
  | addFreeAgent
  | addTeam (team : String)
deriving DecidableEq, Repr

/-- Discord-side facts a finalize/award needs about the player and the
guild roles; role operations can be forbidden by permissions. -/
structure RoleEnv where
  memberFound : Bool
  hasWaiversRole : Bool
  hasFreeAgentRole : Bool
  hasTeamRole : Bool
  waiversRoleInGuild : Bool
  freeAgentRoleInGuild : Bool
  teamRoleIdOk : Bool
  teamRoleInGuild : Bool
  roleOpsPermitted : Bool
deriving DecidableEq, Repr

/-- Result of a finalize or award attempt: success flag, sheet writes
made, and role operations applied. -/
structure EffectResult where
  ok : Bool
  writes : List CellWrite
  roleOps : List RoleOp
deriving DecidableEq, Repr

/-- waiverclaim.py _finalize_to_free_agent: set the sheet team cell of
the player to Free Agent, then remove the Waivers role and ensure the
Free Agent role.  Failures after the sheet write still leave the cell
written. -/
def finalizeToFreeAgent (sheet : Sheet) (playerId : Int) (env : RoleEnv) :
    EffectResult :=
  match findRowIndexByDiscordId sheet playerId with
  | none => ⟨false, [], []⟩
  | some row =>
    let w : List CellWrite := [⟨row, COL_TEAM + 1, "Free Agent"⟩]
    if ¬ env.memberFound then ⟨false, w, []⟩ else
    if ¬ env.roleOpsPermitted then ⟨false, w, []⟩ else
    ⟨true, w,
      (if env.waiversRoleInGuild ∧ env.hasWaiversRole then [RoleOp.removeWaivers] else [])
      ++ (if env.freeAgentRoleInGuild ∧ ¬ env.hasFreeAgentRole then [RoleOp.addFreeAgent] else [])⟩

/-- waiverclaim.py _apply_claim_award: re-check the player is still on
Waivers in the sheet and the winning team has a roster spot (fewer than
4 players), then write the team cell and swap the Discord roles. -/
def applyClaimAward (sheet : Sheet) (playerId : Int) (winningTeam : String)
    (env : RoleEnv) : EffectResult :=
  match findRowIndexByDiscordId sheet playerId with
  | none => ⟨false, [], []⟩
  | some row =>
    let currentTeam := getTeamFromRow sheet row
    if ¬ isWaiversTeam currentTeam then ⟨false, [], []⟩ else
    if countTeamPlayers sheet winningTeam ≥ 4 then ⟨false, [], []⟩ else
    let w : List CellWrite := [⟨row, COL_TEAM + 1, winningTeam⟩]
    if ¬ env.memberFound then ⟨false, w, []⟩ else
    if ¬ env.teamRoleIdOk then ⟨false, w, []⟩ else
    if ¬ env.teamRoleInGuild then ⟨false, w, []⟩ else
    if ¬ env.roleOpsPermitted then ⟨false, w, []⟩ else
    ⟨true, w,
      (if env.waiversRoleInGuild ∧ env.hasWaiversRole then [RoleOp.removeWaivers] else [])
      ++ (if env.freeAgentRoleInGuild ∧ env.hasFreeAgentRole then [RoleOp.removeFreeAgent] else [])
      ++ (if ¬ env.hasTeamRole then [RoleOp.addTeam winningTeam] else [])⟩

/-- Outcome tag of the admin Approve button on a waiver claim. -/
inductive ApproveTag where
  | recordMissing
  | noClaim
  | invalidClaim
  | awardFailed
  | approved
deriving DecidableEq, Repr

/-- Result of waiverclaim.py AdminApproveView.approve. -/
structure AdminApproveResult where
  tag : ApproveTag
  award : EffectResult
  waivers : WMap
deriving DecidableEq, Repr

/-- waiverclaim.py AdminApproveView.approve: reload waivers.json, fetch
record and claim, validate the claim data, apply the award, and delete
the record only when the award succeeded; a failed award keeps the
claim record pending. -/
def adminApprove (data : WMap) (playerId : Int) (sheet : Sheet)
    (env : RoleEnv) : AdminApproveResult :=
  match mapGet data (toString playerId) with
  | none => ⟨.recordMissing, ⟨false, [], []⟩, data⟩
  | some rec =>
    match rec.claim with
    | none => ⟨.noClaim, ⟨false, [], []⟩, data⟩
    | some claim =>
      let winningTeam := normalize (claim.team_name.getD "")
      if winningTeam = "" ∨ claim.claimed_by_id = none ∨ claim.origin_channel_id = none then
        ⟨.invalidClaim, ⟨false, [], []⟩, data⟩
      else
        let award := applyClaimAward sheet playerId winningTeam env
        if award.ok then
          ⟨.approved, award, mapDel data (toString playerId)⟩
        else
          ⟨.awardFailed, award, data⟩

/-- One observable action of a pass of the expiration loop. -/
inductive LoopEvent where
  | finalized (playerId : Int) (res : EffectResult)
  | adminRequestSent (playerId : Int)
  | prompted (playerId : Int)
deriving DecidableEq, Repr

/-- Per-record step of waiverclaim.py process_waiver_expirations.
Returns the surviving record (none when the loop pops the entry) and
the events of this record.  The roster sheet and per-player role facts
are inputs; the model keeps the sheet fixed across the pass since each
finalize touches only the row of its own player. -/
def expireStep (sheet : Sheet) (roleEnvOf : Int → RoleEnv)
    (guildKnown : Int → Bool) (promptDeliverable : Int → Bool)
    (parse : String → Option Int) (renderIso : Int → String) (now : Int)
    (rec : WRecord) : Option WRecord × List LoopEvent :=
  match parse (rec.expires_at.getD "") with
  | none => (some rec, [])
  | some expiresAt =>
    if expiresAt > now then (some rec, []) else
    match rec.guild_id, rec.player_id with
    | some guildId, some playerId =>
      if ¬ guildKnown guildId then (some rec, []) else
      match rec.claim with
      | none =>
        let res := finalizeToFreeAgent sheet playerId (roleEnvOf playerId)
        if res.ok then (none, [.finalized playerId res])
        else (some rec, [.finalized playerId res])
      | some claim =>
        let teamName := normalize (claim.team_name.getD "")
        if ¬ (claim.claimed_by_id ≠ none ∧ claim.origin_channel_id ≠ none ∧ teamName ≠ "") then
          (some rec, [])
        else
          match claim.confirmed with
          | .cbool false =>
            let res := finalizeToFreeAgent sheet playerId (roleEnvOf playerId)
            if res.ok then (none, [.finalized playerId res])
            else (some rec, [.finalized playerId res])
          | .cbool true => (some rec, [.adminRequestSent playerId])
          | _ =>
            if ¬ promptDeliverable (claim.origin_channel_id.getD 0) then
              (some rec, [])
            else
              let promptedClaim :=
                { claim with confirmed := ConfirmState.cprompted,
                             confirmed_at := some (renderIso now) }
              (some { rec with claim := some promptedClaim },
               [.prompted playerId])
    | _, _ => (some rec, [])

/-- One pass of the background loop process_waiver_expirations over the
whole waivers.json mapping. -/
def expirationsPass (sheet : Sheet) (roleEnvOf : Int → RoleEnv)
    (guildKnown : Int → Bool) (promptDeliverable : Int → Bool)
    (parse : String → Option Int) (renderIso : Int → String) (now : Int)
    (data : WMap) : WMap × List LoopEvent :=
  match data with
  | [] => ([], [])
  | (key, rec) :: rest =>
    let (kept, evs) :=
      expireStep sheet roleEnvOf guildKnown promptDeliverable parse renderIso now rec
    let (restData, restEvs) :=
      expirationsPass sheet roleEnvOf guildKnown promptDeliverable parse renderIso now rest
    (match kept with
     | none => restData
     | some r2 => (key, r2) :: restData, evs ++ restEvs)

end QRLS.WaiverClaim

namespace QRLS.Sub

open QRLS

/-- A persisted record in data/subs.json; Option fields model keys that
may be absent or fail the int()/fromisoformat conversions. -/
structure SubRec where
  guild_id : Option Int
  user_id : Option Int
  role_id : Option Int
  expires_at : Option String
  key : Option String
deriving DecidableEq, Repr

/-- sub.py _make_sub_key. -/
def makeSubKey (g u r : Int) (expiresIso : String) : String :=
  toString g ++ ":" ++ toString u ++ ":" ++ toString r ++ ":" ++ expiresIso

/-- The key _rehydrate_subs uses: the stored _key when truthy,
otherwise a freshly built one. -/
def keyOf (rec : SubRec) (g u r : Int) (expiresIso : String) : String :=
  match rec.key with
  | some k => if k = "" then makeSubKey g u r expiresIso else k
  | none => makeSubKey g u r expiresIso

/-- The int()/fromisoformat conversions _rehydrate_subs runs on one
record inside its try block: all succeed or the record is skipped. -/
def subRecFields (parse : String → Option Int) (rec : SubRec) :
    Option (Int × Int × Int × String × Int) :=
  match rec.guild_id, rec.user_id, rec.role_id, rec.expires_at with
  | some g, some u, some r, some e =>
    (match parse e with
     | none => none
     | some t => some (g, u, r, e, t))
  | _, _, _, _ => none

/-- The key of a record as _rehydrate_subs would compute it, defined
only for records whose conversions all succeed. -/
def computedKey (parse : String → Option Int) (rec : SubRec) : Option String :=
  match subRecFields parse rec with
  | none => none
  | some (g, u, r, e, _) => some (keyOf rec g u r e)

/-- What the startup scan decides for one record: an immediate removal
task or an asyncio.sleep task firing at the given time. -/
inductive SubAction where
  | removeNow (key : String) (guildId userId roleId : Int)
  | scheduleAt (key : String) (fireAt : Int) (guildId userId roleId : Int)
deriving DecidableEq, Repr

/-- sub.py _rehydrate_subs with the _schedule_removal dedup on pending
task keys threaded through as the accumulator. -/
def rehydrateAux (parse : String → Option Int) (now : Int) :
    List SubRec → List String → List SubAction
  | [], _ => []
  | rec :: rest, scheduled =>
    match subRecFields parse rec with
    | none => rehydrateAux parse now rest scheduled
    | some (g, u, r, eIso, e) =>
      if e ≤ now then
        SubAction.removeNow (keyOf rec g u r eIso) g u r ::
          rehydrateAux parse now rest scheduled
      else if scheduled.contains (keyOf rec g u r eIso) then
        rehydrateAux parse now rest scheduled
      else
        SubAction.scheduleAt (keyOf rec g u r eIso) (now + max 0 (e - now)) g u r ::
          rehydrateAux parse now rest ((keyOf rec g u r eIso) :: scheduled)

/-- sub.py _rehydrate_subs: one scan of subs.json at startup. -/
def rehydrate (parse : String → Option Int) (now : Int)
    (subs : List SubRec) : List SubAction :=
  rehydrateAux parse now subs []

/-- Discord-side facts _remove_role_and_cleanup inspects. -/
structure SubEnv where
  guildFound : Bool
  roleFound : Bool
  memberFound : Bool
  memberHasRole : Bool
  removePermitted : Bool
deriving DecidableEq, Repr

/-- Result of _remove_role_and_cleanup. -/
structure CleanupResult where
  roleRemoved : Bool
  recordDeleted : Bool
deriving DecidableEq, Repr

/-- sub.py _remove_role_and_cleanup: remove the temp team role when it
is still present and removable, and delete the subs.json record in
every path (the deletion sits in the finally block). -/
def removeRoleAndCleanup (env : SubEnv) : CleanupResult :=
  if ¬ env.guildFound then ⟨false, true⟩ else
  if ¬ env.roleFound then ⟨false, true⟩ else
  if ¬ env.memberFound then ⟨false, true⟩ else
  if env.memberHasRole ∧ env.removePermitted then ⟨true, true⟩ else ⟨false, true⟩

/-- Instruction alphabet for the lock-discipline model: the steps of
the subs.json and waivers.json accessors that matter for concurrency. -/
inductive LInstr where
  | acquire
  | release
  | subsRead
  | subsWrite
  | waiversRead
  | waiversWrite
  | compute
deriving DecidableEq, Repr

/-- sub.py _load_subs: everything, including the read, inside
async with self._subs_lock. -/
def loadSubsProg : List LInstr := [.acquire, .compute, .subsRead, .release]

/-- sub.py _save_subs: the write inside async with self._subs_lock. -/
def saveSubsProg : List LInstr := [.acquire, .compute, .subsWrite, .release]

/-- waiverclaim.py _load_waivers_json (drop.py has the identical
function): plain read, no lock anywhere. -/
def loadWaiversProg : List LInstr := [.compute, .waiversRead]

/-- waiverclaim.py _save_waivers_json (drop.py identical): write the
tmp file then os.replace; no lock anywhere. -/
def saveWaiversProg : List LInstr := [.compute, .waiversWrite]

/-- Is the instruction an access of data/subs.json? -/
def isSubsAccess : LInstr → Bool
  | .subsRead => true
  | .subsWrite => true
  | _ => false

/-- Every subs.json access in the program happens at positive lock
depth, and acquire/release are well nested. -/
def lockedAccessesOnly : List LInstr → Nat → Bool
  | [], _ => true
  | .acquire :: rest, d => lockedAccessesOnly rest (d + 1)
  | .release :: rest, d => decide (d > 0) && lockedAccessesOnly rest (d - 1)
  | i :: rest, d => (!isSubsAccess i || decide (d > 0)) && lockedAccessesOnly rest d

/-- Does the program touch the lock at all? -/
def usesLock (p : List LInstr) : Bool :=
  p.any (fun i => i = LInstr.acquire ∨ i = LInstr.release)

/-- The asyncio.Lock objects constructed anywhere in the repository:
only Sub.__init__ creates one (self._subs_lock). -/
def programLocks : List String := ["Sub._subs_lock"]

/-- Two cooperating tasks each running a subs.json accessor, plus the
lock holder (some false = task one, some true = task two). -/
structure Cfg where
  rest1 : List LInstr
  rest2 : List LInstr
  holder : Option Bool
deriving DecidableEq, Repr

/-- One task executes its next instruction; acquire blocks while the
lock is held and release requires ownership. -/
def threadStep (rest : List LInstr) (holder : Option Bool) (tid : Bool) :
    Option (List LInstr × Option Bool) :=
  match rest with
  | [] => none
  | .acquire :: r => match holder with
    | none => some (r, some tid)
    | some _ => none
  | .release :: r => match holder with
    | some h => if h = tid then some (r, none) else none
    | none => none
  | _ :: r => some (r, holder)

/-- Interleaving semantics of the two tasks. -/
inductive LStep : Cfg → Cfg → Prop where
  | left (r1 r2 : List LInstr) (h h2 : Option Bool) (r1n : List LInstr) :
      threadStep r1 h false = some (r1n, h2) → LStep ⟨r1, r2, h⟩ ⟨r1n, r2, h2⟩
  | right (r1 r2 : List LInstr) (h h2 : Option Bool) (r2n : List LInstr) :
      threadStep r2 h true = some (r2n, h2) → LStep ⟨r1, r2, h⟩ ⟨r1, r2n, h2⟩

/-- Configurations reachable from both tasks at the start of a subs
accessor with the lock free. -/
def Reach (p q : List LInstr) (c : Cfg) : Prop :=
  Relation.ReflTransGen LStep ⟨p, q, none⟩ c

/-- Valid positions of one task running _load_subs or _save_subs,
relative to whether it owns the lock. -/
def subsThreadOk (rest : List LInstr) (mine : Bool) : Bool :=
  if mine then
    rest = [.compute, .subsRead, .release] || rest = [.subsRead, .release] ||
    rest = [.compute, .subsWrite, .release] || rest = [.subsWrite, .release] ||
    rest = [.release]
  else
    rest = loadSubsProg || rest = saveSubsProg || rest = []

/-- Machine invariant: each task is at a valid position consistent
with lock ownership. -/
def CfgInv (c : Cfg) : Prop :=
  subsThreadOk c.rest1 (c.holder = some false) = true ∧
  subsThreadOk c.rest2 (c.holder = some true) = true

/-- All values the lock holder can take. -/
def holderOpts : List (Option Bool) := [none, some false, some true]

/-- The positions accepted by subsThreadOk, as an explicit list. -/
def restOpts (mine : Bool) : List (List LInstr) :=
  if mine then
    [[.compute, .subsRead, .release], [.subsRead, .release],
     [.compute, .subsWrite, .release], [.subsWrite, .release], [.release]]
  else [loadSubsProg, saveSubsProg, []]

/-- Exhaustive check that from every configuration satisfying the
invariant, any enabled step of either task lands in a configuration
satisfying it again. -/
def preserveCheck : Bool :=
  holderOpts.all fun h =>
    (restOpts (h = some false)).all fun r1 =>
      (restOpts (h = some true)).all fun r2 =>
        ((threadStep r1 h false).elim true fun s =>
          decide (subsThreadOk s.1 (s.2 = some false) = true ∧
            subsThreadOk r2 (s.2 = some true) = true)) &&
        ((threadStep r2 h true).elim true fun s =>
          decide (subsThreadOk r1 (s.2 = some false) = true ∧
            subsThreadOk s.1 (s.2 = some true) = true))

/-- The task is strictly inside the locked section: past its acquire
and with instructions still to run. -/
def inCS (rest : List LInstr) : Bool :=
  !rest.isEmpty && !(decide (rest.head? = some LInstr.acquire))

/-- Exhaustive check that no invariant-satisfying configuration has
both tasks inside the locked section at once. -/
def exclusionCheck : Bool :=
  holderOpts.all fun h =>
    (restOpts (h = some false)).all fun r1 =>
      (restOpts (h = some true)).all fun r2 =>
        !(inCS r1 && inCS r2)

end QRLS.Sub

namespace QRLS.Storage

open QRLS

/-- What data/waivers.json may hold when _load_waivers_json opens it:
missing, unreadable, syntactically invalid JSON, valid JSON whose top
level is not an object, or a proper object. -/
inductive FileContent where
  | absent
  | unreadable
  | invalidJson
  | nonObject
  | object (m : WMap)
deriving DecidableEq, Repr

/-- waiverclaim.py _load_waivers_json (drop.py holds the identical
copy): a total function — the missing-file check returns the empty
dict, the broad except around open/json.load returns the empty dict,
and a non-dict top level is replaced by the empty dict. -/
def loadWaiversJson : FileContent → WMap
  | .object m => m
  | _ => []

/-- The file system state _save_waivers_json manipulates: the main
file and the .tmp sibling. -/
structure FState where
  main : FileContent
  tmp : Option WMap
deriving DecidableEq, Repr

/-- waiverclaim.py _save_waivers_json (drop.py identical): serialize
the whole mapping into waivers.json.tmp, then os.replace it over the
main file.  The list is every file-system state a concurrent reader
could observe during the save. -/
def saveWaiversTrace (fs : FState) (data : WMap) : List FState :=
  [fs, { fs with tmp := some data }, { main := FileContent.object data, tmp := none }]

/-- One read-modify-write mutation of the waivers.json store, as the
cogs perform them. -/
inductive Mutation where
  | record (guildId playerId : Int) (requestedAtIso expiresAtIso team : String)
      (droppedById : Int)
  | setCl (playerId : Int) (team : String) (rank : Int) (byId originCh : Int)
      (atIso : String)
  | clearCl (playerId : Int)
  | deleteRec (playerId : Int)
  | confirmSet (playerId : Int) (value : Bool) (atIso : String)

/-- Apply a mutation to the in-memory mapping exactly as the Python
call sites do (set_claim/clear_claim/confirm updates operate on the
record fetched from the same mapping; a missing record leaves the
mapping unchanged, matching the guards at every call site). -/
def applyMutation (data : WMap) : Mutation → WMap
  | .record g p rq ex t d => Drop.recordWaiver data g p rq ex t d
  | .setCl p t r b o atIso =>
    (match mapGet data (toString p) with
     | some rec => WaiverClaim.setClaim data rec p t r b o atIso
     | none => data)
  | .clearCl p =>
    (match mapGet data (toString p) with
     | some rec => WaiverClaim.clearClaim data rec p
     | none => data)
  | .deleteRec p => mapDel data (toString p)
  | .confirmSet p v atIso =>
    (match mapGet data (toString p) with
     | some rec =>
       (match rec.claim with
        | some claim =>
          let c2 := { claim with confirmed := ConfirmState.cbool v,
                                 confirmed_at := some atIso }
          mapSet data (toString p) { rec with claim := some c2 }
        | none => data)
     | none => data)

/-- A full mutation cycle as the cogs run it: load the store, mutate
the whole mapping in memory, and save the whole mapping back. -/
def mutateAndSave (fs : FState) (m : Mutation) : FState :=
  ((saveWaiversTrace fs (applyMutation (loadWaiversJson fs.main) m)).getLast?).getD fs

/-- A record is shaped the way _record_waiver creates them: stored
under the decimal string of its player id and carrying guild_id,
player_id, requested_at, expires_at, original_team and dropped_by_id. -/
def wellFormedRecord (key : String) (rec : WRecord) : Bool :=
  match rec.player_id with
  | none => false
  | some p =>
    key = toString p && rec.guild_id.isSome && rec.requested_at.isSome &&
    rec.expires_at.isSome && rec.original_team.isSome && rec.dropped_by_id.isSome

/-- Every record of the mapping is well formed. -/
def wellFormedMap (data : WMap) : Bool :=
  data.all (fun kv => wellFormedRecord kv.1 kv.2)

end QRLS.Storage

namespace QRLS.Commands

/-- One slash command of the bot: its name and whether the whole
command body is wrapped in the broad step-logging exception handler
(try at the top of the body, except Exception at the bottom that logs
the step name and sends the invoker an ephemeral error). -/
structure SlashCommand where
  name : String
  wrapsBodyInBroadHandler : Bool
deriving DecidableEq, Repr

/-- Every slash command registered by the cogs under src/cogs, with
the handler flag read off each command body. -/
def botCommands : List SlashCommand :=
  [⟨"add", true⟩, ⟨"clearschedule", false⟩, ⟨"confirm", false⟩,
   ⟨"drop", true⟩, ⟨"help", false⟩, ⟨"profile", false⟩,
   ⟨"propose", false⟩, ⟨"refresh", false⟩, ⟨"retire", true⟩,
   ⟨"salary", false⟩, ⟨"sendmessage", false⟩, ⟨"settoken", false⟩,
   ⟨"startweek", true⟩, ⟨"sub", true⟩, ⟨"teaminfo", true⟩,
   ⟨"token", false⟩, ⟨"trade", true⟩, ⟨"transactions", false⟩,
   ⟨"unretire", true⟩, ⟨"updateuser", true⟩, ⟨"waiverclaim", true⟩]

/-- The commands whose bodies are fully wrapped by the step-logging
broad handler. -/
def wrappedCommandNames : List String :=
  ["add", "drop", "retire", "startweek", "sub", "teaminfo", "trade",
   "unretire", "updateuser", "waiverclaim"]

end QRLS.Commands

namespace QRLS

/-! Helper lemmas about the dictionary operations. -/

theorem mapGet_mapSet_self (data : WMap) (k : String) (r : WRecord) :
    mapGet (mapSet data k r) k = some r := by
  unfold mapSet
  split
  case isTrue h =>
    induction data with
    | nil => simp at h
    | cons hd tl ih =>
      by_cases hk : hd.1 = k
      · simp [mapGet, List.find?, hk]
      · simp only [List.any_cons, Bool.or_eq_true, decide_eq_true_eq] at h
        rcases h with h | h
        · exact absurd h hk
        · simpa [mapGet, List.find?, hk] using ih h
  case isFalse h =>
    induction data with
    | nil => simp [mapGet, List.find?]
    | cons hd tl ih =>
      simp only [List.any_cons, Bool.or_eq_true, decide_eq_true_eq, not_or] at h
      simpa [mapGet, List.find?, h.1] using ih (by simpa using h.2)

theorem mem_mapSet (data : WMap) (k : String) (r : WRecord) (x : String × WRecord)
    (hx : x ∈ mapSet data k r) : x = (k, r) ∨ x ∈ data := by
  unfold mapSet at hx
  split at hx
  · rcases List.mem_map.mp hx with ⟨y, hy, he⟩
    by_cases hk : y.1 = k
    · left; simp [hk] at he; exact he.symm
    · right; simp [hk] at he; exact he ▸ hy
  · rcases List.mem_append.mp hx with h | h
    · exact Or.inr h
    · left; simpa using h

end QRLS

namespace QRLS.Storage

open QRLS

theorem wf_of_mapGet (data : WMap) (k : String) (r : WRecord)
    (hwf : wellFormedMap data = true) (hget : mapGet data k = some r) :
    wellFormedRecord k r = true := by
  unfold mapGet at hget
  split at hget
  · exact absurd hget (by simp)
  case h_2 kv hf =>
    have hmem := List.mem_of_find?_eq_some hf
    have hkey : kv.1 = k := by simpa using List.find?_some hf
    have := List.all_eq_true.mp hwf kv hmem
    injection hget with hr
    rw [← hr, ← hkey]
    simpa using this

theorem wf_mapSet (data : WMap) (k : String) (r : WRecord)
    (hwf : wellFormedMap data = true) (hr : wellFormedRecord k r = true) :
    wellFormedMap (mapSet data k r) = true := by
  apply List.all_eq_true.mpr
  intro kv hkv
  rcases mem_mapSet data k r kv hkv with h | h
  · subst h; simpa using hr
  · exact List.all_eq_true.mp hwf kv h

theorem wf_mapDel (data : WMap) (k : String)
    (hwf : wellFormedMap data = true) :
    wellFormedMap (mapDel data k) = true := by
  apply List.all_eq_true.mpr
  intro kv hkv
  exact List.all_eq_true.mp hwf kv (List.mem_of_mem_filter hkv)

theorem wfRecord_claim_update (k : String) (rec : WRecord) (c : Option WClaim)
    (h : wellFormedRecord k rec = true) :
    wellFormedRecord k { rec with claim := c } = true := by
  simpa [wellFormedRecord] using h

end QRLS.Storage

/-- C6 counterexample: the /help command body (help.py lines 54-134)
contains no try/except at all, so not every slash command wraps its
body in a broad exception handler. -/
theorem help_command_has_no_broad_handler :
    (⟨"help", false⟩ : QRLS.Commands.SlashCommand) ∈ QRLS.Commands.botCommands ∧
    ¬ (∀ c ∈ QRLS.Commands.botCommands, c.wrapsBodyInBroadHandler = true) := by
  constructor
  · decide
  · intro h
    have := h ⟨"help", false⟩ (by decide)
    simp at this

/-- C6 (amended): exactly the workflow commands /add, /drop, /retire,
/startweek, /sub, /teaminfo, /trade, /unretire, /updateuser and
/waiverclaim wrap their bodies in the broad step-logging exception
handler; the remaining slash commands (/clearschedule, /confirm,
/help, /profile, /propose, /refresh, /salary, /sendmessage, /settoken,
/token, /transactions) do not. -/
theorem broad_handler_exactly_on_workflow_commands :
    ∀ c ∈ QRLS.Commands.botCommands,
      c.wrapsBodyInBroadHandler = true ↔ c.name ∈ QRLS.Commands.wrappedCommandNames := by
  decide

/-- Witness for the amended C6 theorem at the /add command. -/
theorem broad_handler_witness :
    (⟨"add", true⟩ : QRLS.Commands.SlashCommand) ∈ QRLS.Commands.botCommands ∧
    ((⟨"add", true⟩ : QRLS.Commands.SlashCommand).wrapsBodyInBroadHandler = true ↔
      "add" ∈ QRLS.Commands.wrappedCommandNames) :=
  ⟨by decide, broad_handler_exactly_on_workflow_commands ⟨"add", true⟩ (by decide)⟩

/-- C10: _load_waivers_json is total — it returns the empty mapping on
a missing, unreadable, syntactically invalid or non-object file and the
stored mapping otherwise — and every intermediate state of
_save_waivers_json (tmp write, then os.replace) shows the main file
with either the old or the complete new content, never a partial one. -/
theorem load_total_save_atomic :
    (QRLS.Storage.loadWaiversJson .absent = [] ∧
     QRLS.Storage.loadWaiversJson .unreadable = [] ∧
     QRLS.Storage.loadWaiversJson .invalidJson = [] ∧
     QRLS.Storage.loadWaiversJson .nonObject = [] ∧
     (∀ m, QRLS.Storage.loadWaiversJson (.object m) = m)) ∧
    (∀ fs data s, s ∈ QRLS.Storage.saveWaiversTrace fs data →
       s.main = fs.main ∨ s.main = QRLS.Storage.FileContent.object data) := by
  refine ⟨⟨rfl, rfl, rfl, rfl, fun m => rfl⟩, ?_⟩
  intro fs data s hs
  simp only [QRLS.Storage.saveWaiversTrace, List.mem_cons, List.mem_singleton,
    List.not_mem_nil, or_false] at hs
  rcases hs with h | h | h <;> subst h <;> simp

/-- Witness for the C10 theorem: the final state of a concrete save
holds the complete new mapping. -/
theorem load_total_save_atomic_witness :
    (⟨QRLS.Storage.FileContent.object [], none⟩ : QRLS.Storage.FState).main =
      (⟨QRLS.Storage.FileContent.absent, none⟩ : QRLS.Storage.FState).main ∨
    (⟨QRLS.Storage.FileContent.object [], none⟩ : QRLS.Storage.FState).main =
      QRLS.Storage.FileContent.object [] :=
  load_total_save_atomic.2 ⟨QRLS.Storage.FileContent.absent, none⟩ []
    ⟨QRLS.Storage.FileContent.object [], none⟩ (by decide)

/-- C5: the waivers.json store always holds one mapping from the
decimal string of the player id to a record with guild_id, player_id,
requested_at, expires_at, original_team and dropped_by_id (a claim
object being optional): _record_waiver creates exactly such records
and every mutation preserves the shape; and each mutation cycle
re-serializes the whole mapping and replaces the entire file. -/
theorem waivers_shape_and_wholesale_rewrite :
    (∀ (data : QRLS.WMap) (m : QRLS.Storage.Mutation),
       QRLS.Storage.wellFormedMap data = true →
       QRLS.Storage.wellFormedMap (QRLS.Storage.applyMutation data m) = true) ∧
    (∀ (fs : QRLS.Storage.FState) (m : QRLS.Storage.Mutation),
       QRLS.Storage.mutateAndSave fs m =
         ⟨QRLS.Storage.FileContent.object
            (QRLS.Storage.applyMutation (QRLS.Storage.loadWaiversJson fs.main) m), none⟩) ∧
    (∀ (data : QRLS.WMap) (g p : Int) (rq ex t : String) (d : Int),
       QRLS.mapGet (QRLS.Drop.recordWaiver data g p rq ex t d) (toString p) =
         some ⟨some g, some p, some rq, some ex, some t, some d, none⟩) := by
  refine ⟨?_, fun fs m => rfl, fun data g p rq ex t d => QRLS.mapGet_mapSet_self ..⟩
  intro data m hwf
  cases m with
  | record g p rq ex t d =>
    exact QRLS.Storage.wf_mapSet _ _ _ hwf (by simp [QRLS.Storage.wellFormedRecord])
  | setCl p t r b o atIso =>
    simp only [QRLS.Storage.applyMutation]
    cases hget : QRLS.mapGet data (toString p) with
    | none => exact hwf
    | some rec =>
      exact QRLS.Storage.wf_mapSet _ _ _ hwf
        (QRLS.Storage.wfRecord_claim_update _ _ _
          (QRLS.Storage.wf_of_mapGet data _ rec hwf hget))
  | clearCl p =>
    simp only [QRLS.Storage.applyMutation]
    cases hget : QRLS.mapGet data (toString p) with
    | none => exact hwf
    | some rec =>
      exact QRLS.Storage.wf_mapSet _ _ _ hwf
        (QRLS.Storage.wfRecord_claim_update _ _ _
          (QRLS.Storage.wf_of_mapGet data _ rec hwf hget))
  | deleteRec p => exact QRLS.Storage.wf_mapDel _ _ hwf
  | confirmSet p v atIso =>
    simp only [QRLS.Storage.applyMutation]
    cases hget : QRLS.mapGet data (toString p) with
    | none => exact hwf
    | some rec =>
      dsimp only
      cases hcl : rec.claim with
      | none => exact hwf
      | some claim =>
        dsimp only
        exact QRLS.Storage.wf_mapSet _ _ _ hwf
          (QRLS.Storage.wfRecord_claim_update _ _ _
            (QRLS.Storage.wf_of_mapGet data _ rec hwf hget))

/-- Witness for the C5 theorem: a concrete claim-set mutation on a
well-formed one-record store stays well formed. -/
theorem waivers_shape_witness :
    QRLS.Storage.wellFormedMap
      (QRLS.Storage.applyMutation
        [("7", ⟨some 1, some 7, some "R", some "E", some "T", some 2, none⟩)]
        (QRLS.Storage.Mutation.setCl 7 "Sharks" 1 5 99 "A")) = true :=
  waivers_shape_and_wholesale_rewrite.1
    [("7", ⟨some 1, some 7, some "R", some "E", some "T", some 2, none⟩)]
    (QRLS.Storage.Mutation.setCl 7 "Sharks" 1 5 99 "A") (by decide)

/-- C2: adding to a full roster is rejected.  At command time, when the
captain team has 4 or more sheet rows the /add command never reaches
the pending-approval state (and the command writes no cell by
construction); at approval time the same recount rejects with no cell
written; and any cell the approval handler does write sets the player
team cell to the captain current team with the roster count at most
3. -/
theorem add_full_roster_rejected :
    (∀ (ctx : QRLS.Add.AddCtx) (t : String),
       QRLS.Add.captainTeamOf ctx.sheet ctx.captainId = some t →
       QRLS.Add.countTeam ctx.sheet t ≥ 4 →
       ∀ cid ct pid, QRLS.Add.addCommand ctx ≠ .pending cid ct pid) ∧
    (∀ (sheet : QRLS.Sheet) (capId pid : Int) (t : String),
       QRLS.Add.captainTeamOf sheet capId = some t →
       QRLS.Add.countTeam sheet t ≥ 4 →
       (QRLS.Add.addApprove sheet capId pid).ok = false ∧
       (QRLS.Add.addApprove sheet capId pid).writes = []) ∧
    (∀ (sheet : QRLS.Sheet) (capId pid : Int) (w : QRLS.CellWrite),
       w ∈ (QRLS.Add.addApprove sheet capId pid).writes →
       ∃ (t : String) (playerRow : Nat),
         QRLS.Add.captainTeamOf sheet capId = some t ∧
         QRLS.findRowIndexByDiscordId sheet pid = some playerRow ∧
         w = ⟨playerRow, QRLS.COL_TEAM + 1, t⟩ ∧
         QRLS.Add.countTeam sheet t ≤ 3) := by
  refine ⟨?_, ?_, ?_⟩
  · intro ctx t h hc cid ct pid hpend
    unfold QRLS.Add.addCommand at hpend
    cases hg : QRLS.Add.addDiscordGuards ctx with
    | some s => rw [hg] at hpend; exact QRLS.Add.AddCmdOutcome.noConfusion hpend
    | none =>
      rw [hg, h] at hpend
      dsimp only at hpend
      repeat' first
      | exact QRLS.Add.AddCmdOutcome.noConfusion hpend
      | split at hpend
      all_goals omega
  · intro sheet capId pid t h hc
    unfold QRLS.Add.captainTeamOf at h
    unfold QRLS.Add.addApprove
    split at h
    · exact absurd h (by simp)
    case h_2 row hrow =>
      dsimp only at h
      split_ifs at h with hblank
      injection h with ht
      subst ht
      try rw [hrow]
      dsimp only
      split_ifs with h1 h2 <;>
        first
        | exact ⟨rfl, rfl⟩
        | exact absurd hc (by assumption)
        | (split <;> first
            | exact ⟨rfl, rfl⟩
            | (split_ifs <;> exact ⟨rfl, rfl⟩))
  · intro sheet capId pid w hw
    unfold QRLS.Add.addApprove at hw
    split at hw
    · simp at hw
    case h_2 row hrow =>
      dsimp only at hw
      split_ifs at hw with hblank hfull
      · simp at hw
      · split at hw
        · simp at hw
        · split_ifs at hw <;> simp at hw
      · split at hw
        · simp at hw
        · rename_i pr hpr
          split_ifs at hw with hfa
          case neg => simp at hw
          case pos =>
            refine ⟨QRLS.getTeamFromRow sheet row, pr, ?_, hpr, ?_, by omega⟩
            · unfold QRLS.Add.captainTeamOf
              rw [hrow]
              dsimp only
              rw [if_neg hblank]
            · simpa using hw

/-- A concrete /add context: captain 1 on team T with a full roster of
4, target player 9 a Free Agent, all Discord guards passing. -/
def addWitnessCtx : QRLS.Add.AddCtx :=
  { captainsRoleId := some 10
    transactionsCategoryId := some 20
    pendingChannelId := some 30
    adminsRoleId := some 40
    userIsMember := true
    userRoles := [10]
    channelIsTextOrThread := true
    baseChannelIsText := true
    baseCategoryId := some 20
    freeAgentRoleIdOk := true
    teamRoleIdOkOf := fun _ => true
    pendingChannelIsText := true
    sheet := [["1", "a", "5", "T"], ["2", "b", "5", "T"], ["3", "c", "5", "T"],
              ["4", "d", "5", "T"], ["9", "e", "5", "Free Agent"]]
    captainId := 1
    playerId := 9 }

/-- Witness for the C2 theorem: with the roster of team T full, the
concrete /add invocation is not accepted and the concrete approval
writes nothing. -/
theorem add_full_roster_witness :
    QRLS.Add.addCommand addWitnessCtx ≠ .pending 1 "T" 9 ∧
    (QRLS.Add.addApprove addWitnessCtx.sheet 1 9).ok = false ∧
    (QRLS.Add.addApprove addWitnessCtx.sheet 1 9).writes = [] :=
  ⟨add_full_roster_rejected.1 addWitnessCtx "T" (by decide) (by decide) 1 "T" 9,
   add_full_roster_rejected.2.1 addWitnessCtx.sheet 1 9 "T" (by decide) (by decide)⟩

/-- C3: dropping a non-roster player is rejected.  At command time a
missing player row or a team mismatch never reaches the pending state
(and the command writes nothing by construction); at approval time the
re-check fails with no sheet write and no change to the waivers.json
mapping, so no waiver record is created. -/
theorem drop_non_roster_rejected :
    (∀ (ctx : QRLS.Drop.DropCtx),
       QRLS.findRowIndexByDiscordId ctx.sheet ctx.playerId = none →
       ∀ cid ct pid, QRLS.Drop.dropCommand ctx ≠ .pending cid ct pid) ∧
    (∀ (ctx : QRLS.Drop.DropCtx) (pr cr : Nat),
       QRLS.findRowIndexByDiscordId ctx.sheet ctx.playerId = some pr →
       QRLS.findRowIndexByDiscordId ctx.sheet ctx.captainId = some cr →
       QRLS.normalize (QRLS.getTeamFromRow ctx.sheet pr) ≠
         QRLS.normalize (QRLS.getTeamFromRow ctx.sheet cr) →
       ∀ cid ct pid, QRLS.Drop.dropCommand ctx ≠ .pending cid ct pid) ∧
    (∀ (sheet : QRLS.Sheet) (capId pid : Int) (reqIso : String)
       (parse : String → Option Int) (render : Int → String) (now gid : Int)
       (data : QRLS.WMap),
       QRLS.findRowIndexByDiscordId sheet pid = none →
       (QRLS.Drop.dropApprove sheet capId pid reqIso parse render now gid data).ok = false ∧
       (QRLS.Drop.dropApprove sheet capId pid reqIso parse render now gid data).writes = [] ∧
       (QRLS.Drop.dropApprove sheet capId pid reqIso parse render now gid data).waivers = data) ∧
    (∀ (sheet : QRLS.Sheet) (capId pid : Int) (reqIso : String)
       (parse : String → Option Int) (render : Int → String) (now gid : Int)
       (data : QRLS.WMap) (pr cr : Nat),
       QRLS.findRowIndexByDiscordId sheet pid = some pr →
       QRLS.findRowIndexByDiscordId sheet capId = some cr →
       QRLS.normalize (QRLS.getTeamFromRow sheet pr) ≠
         QRLS.normalize (QRLS.getTeamFromRow sheet cr) →
       (QRLS.Drop.dropApprove sheet capId pid reqIso parse render now gid data).ok = false ∧
       (QRLS.Drop.dropApprove sheet capId pid reqIso parse render now gid data).writes = [] ∧
       (QRLS.Drop.dropApprove sheet capId pid reqIso parse render now gid data).waivers = data) := by
  refine ⟨?_, ?_, ?_, ?_⟩
  · intro ctx h cid ct pid hpend
    unfold QRLS.Drop.dropCommand at hpend
    cases hg : QRLS.Drop.dropDiscordGuards ctx with
    | some s => rw [hg] at hpend; exact QRLS.Drop.DropCmdOutcome.noConfusion hpend
    | none =>
      rw [hg] at hpend
      dsimp only at hpend
      repeat' first
      | exact QRLS.Drop.DropCmdOutcome.noConfusion hpend
      | split at hpend
      all_goals simp_all
  · intro ctx pr cr hpr hcr hne cid ct pid hpend
    unfold QRLS.Drop.dropCommand at hpend
    cases hg : QRLS.Drop.dropDiscordGuards ctx with
    | some s => rw [hg] at hpend; exact QRLS.Drop.DropCmdOutcome.noConfusion hpend
    | none =>
      rw [hg] at hpend
      dsimp only at hpend
      repeat' first
      | exact QRLS.Drop.DropCmdOutcome.noConfusion hpend
      | split at hpend
      all_goals simp_all
  · intro sheet capId pid reqIso parse render now gid data h
    unfold QRLS.Drop.dropApprove
    split
    · exact ⟨rfl, rfl, rfl⟩
    · rename_i cr hcr
      dsimp only
      split_ifs with hblank
      · exact ⟨rfl, rfl, rfl⟩
      · rw [h]
        exact ⟨rfl, rfl, rfl⟩
  · intro sheet capId pid reqIso parse render now gid data pr cr hpr hcr hne
    unfold QRLS.Drop.dropApprove
    rw [hcr]
    dsimp only
    split_ifs with hblank
    · exact ⟨rfl, rfl, rfl⟩
    · rw [hpr]
      dsimp only
      split_ifs with hmis
      all_goals first
        | exact ⟨rfl, rfl, rfl⟩
        | exact absurd hne (by simpa using hmis)

/-- A concrete /drop context: captain 1 on team T, target player 9 a
Free Agent (not on team T), all Discord guards passing. -/
def dropWitnessCtx : QRLS.Drop.DropCtx :=
  { captainsRoleId := some 10
    transactionsCategoryId := some 20
    pendingChannelId := some 30
    adminsRoleId := some 40
    waiversRoleId := some 50
    userIsMember := true
    userRoles := [10]
    channelIsTextOrThread := true
    baseChannelIsText := true
    baseCategoryId := some 20
    freeAgentRoleIdOk := true
    teamRoleIdOkOf := fun _ => true
    pendingChannelIsText := true
    sheet := [["1", "a", "5", "T"], ["9", "e", "5", "Free Agent"]]
    captainId := 1
    playerId := 9 }

/-- Witness for the C3 theorem: the concrete /drop of a player who is
not on the captain team is not accepted, and the concrete approval
fails with no write and an unchanged waivers mapping. -/
theorem drop_non_roster_witness :
    QRLS.Drop.dropCommand dropWitnessCtx ≠ .pending 1 "T" 9 ∧
    (QRLS.Drop.dropApprove dropWitnessCtx.sheet 1 9 "R" (fun _ => none)
      (fun _ => "S") 0 7 []).ok = false ∧
    (QRLS.Drop.dropApprove dropWitnessCtx.sheet 1 9 "R" (fun _ => none)
      (fun _ => "S") 0 7 []).waivers = [] :=
  ⟨drop_non_roster_rejected.2.1 dropWitnessCtx 2 1 (by decide) (by decide)
     (by decide) 1 "T" 9,
   (drop_non_roster_rejected.2.2.2 dropWitnessCtx.sheet 1 9 "R" (fun _ => none)
     (fun _ => "S") 0 7 [] 2 1 (by decide) (by decide) (by decide)).1,
   (drop_non_roster_rejected.2.2.2 dropWitnessCtx.sheet 1 9 "R" (fun _ => none)
     (fun _ => "S") 0 7 [] 2 1 (by decide) (by decide) (by decide)).2.2⟩

/-- C9: waiver-award atomicity on failure.  When the player row exists
but their team cell is no longer Waivers, or the winning team already
has 4 or more players, _apply_claim_award fails before any sheet write
or role change; and whenever the award does not succeed, the admin
Approve handler keeps the waivers.json mapping (and hence the pending
claim record) unchanged. -/
theorem claim_award_atomic_on_failure :
    (∀ (sheet : QRLS.Sheet) (pid : Int) (team : String)
       (env : QRLS.WaiverClaim.RoleEnv) (row : Nat),
       QRLS.findRowIndexByDiscordId sheet pid = some row →
       QRLS.isWaiversTeam (QRLS.getTeamFromRow sheet row) = false →
       QRLS.WaiverClaim.applyClaimAward sheet pid team env = ⟨false, [], []⟩) ∧
    (∀ (sheet : QRLS.Sheet) (pid : Int) (team : String)
       (env : QRLS.WaiverClaim.RoleEnv) (row : Nat),
       QRLS.findRowIndexByDiscordId sheet pid = some row →
       QRLS.WaiverClaim.countTeamPlayers sheet team ≥ 4 →
       QRLS.WaiverClaim.applyClaimAward sheet pid team env = ⟨false, [], []⟩) ∧
    (∀ (data : QRLS.WMap) (pid : Int) (sheet : QRLS.Sheet)
       (env : QRLS.WaiverClaim.RoleEnv),
       (QRLS.WaiverClaim.adminApprove data pid sheet env).tag ≠ .approved →
       (QRLS.WaiverClaim.adminApprove data pid sheet env).waivers = data) := by
  refine ⟨?_, ?_, ?_⟩
  · intro sheet pid team env row hrow hteam
    unfold QRLS.WaiverClaim.applyClaimAward
    rw [hrow]
    dsimp only
    rw [if_pos (by simp [hteam])]
  · intro sheet pid team env row hrow hcount
    unfold QRLS.WaiverClaim.applyClaimAward
    rw [hrow]
    dsimp only
    split_ifs with h1 h2
    all_goals first
    | rfl
    | exact absurd hcount (by assumption)
    | omega
  · intro data pid sheet env htag
    unfold QRLS.WaiverClaim.adminApprove at htag ⊢
    split
    · rfl
    · rename_i rec hrec
      rw [hrec] at htag
      dsimp only at htag ⊢
      split
      · rfl
      · rename_i claim hclaim
        rw [hclaim] at htag
        dsimp only at htag
        split_ifs at htag ⊢ with hvalid
        · rfl
        · exact absurd rfl htag
        · rfl

/-- Role facts with everything in place (member found, roles resolvable,
operations permitted). -/
def happyRoleEnv : QRLS.WaiverClaim.RoleEnv :=
  { memberFound := true
    hasWaiversRole := true
    hasFreeAgentRole := false
    hasTeamRole := false
    waiversRoleInGuild := true
    freeAgentRoleInGuild := true
    teamRoleIdOk := true
    teamRoleInGuild := true
    roleOpsPermitted := true }

/-- Witness for the C9 theorem: a player already back on a team makes
the concrete award fail with no writes, and the concrete failed
approval keeps the record. -/
theorem claim_award_atomic_witness :
    QRLS.WaiverClaim.applyClaimAward [["9", "x", "5", "T"]] 9 "T" happyRoleEnv =
      ⟨false, [], []⟩ ∧
    (QRLS.WaiverClaim.adminApprove
      [("9", ⟨some 1, some 9, some "R", some "E", some "T", some 2,
              some ⟨some "T", some 3, some 5, some "A", some 77,
                    QRLS.ConfirmState.cbool true, none⟩⟩)]
      9 [["9", "x", "5", "T"]] happyRoleEnv).waivers =
      [("9", ⟨some 1, some 9, some "R", some "E", some "T", some 2,
              some ⟨some "T", some 3, some 5, some "A", some 77,
                    QRLS.ConfirmState.cbool true, none⟩⟩)] :=
  ⟨claim_award_atomic_on_failure.1 [["9", "x", "5", "T"]] 9 "T" happyRoleEnv 1
     (by decide) (by decide),
   claim_award_atomic_on_failure.2.2
     [("9", ⟨some 1, some 9, some "R", some "E", some "T", some 2,
             some ⟨some "T", some 3, some 5, some "A", some 77,
                   QRLS.ConfirmState.cbool true, none⟩⟩)]
     9 [["9", "x", "5", "T"]] happyRoleEnv (by decide)⟩

/-- C1: waiver-claim priority.  When a /waiverclaim invocation passes
every guard (wcPrelude succeeds) and the stored record already has a
claim with an integer team_rank r, then: a strictly smaller stored
rank rejects the command and leaves the mapping unchanged; a strictly
smaller claimant rank replaces the claim with the claimant team, rank,
claimant id and origin channel through _set_claim; equal ranks reject
with the mapping unchanged.  The first conjunct ties the compare
context to the stored record. -/
theorem waiverclaim_priority :
    ∀ (ctx : QRLS.WaiverClaim.WCCtx) (data : QRLS.WMap)
      (parse : String → Option Int) (renderIso : Int → String) (now : Int)
      (p : QRLS.WaiverClaim.CompareCtx) (c : QRLS.WClaim) (r : Int),
      QRLS.WaiverClaim.wcPrelude ctx data parse now = .ok p →
      p.record.claim = some c →
      c.team_rank = some r →
      (QRLS.mapGet data (toString ctx.playerId) = some p.record) ∧
      (r < p.claimantRank →
        QRLS.WaiverClaim.waiverclaimCmd ctx data parse renderIso now =
          (.rejected "HIGHER_CLAIM_EXISTS", data)) ∧
      (p.claimantRank < r →
        QRLS.WaiverClaim.waiverclaimCmd ctx data parse renderIso now =
          (.replaced p.claimantTeam p.claimantRank,
           QRLS.WaiverClaim.setClaim data p.record ctx.playerId p.claimantTeam
             p.claimantRank ctx.userId ctx.originChannelId (renderIso now)) ∧
        QRLS.mapGet
          (QRLS.WaiverClaim.setClaim data p.record ctx.playerId p.claimantTeam
            p.claimantRank ctx.userId ctx.originChannelId (renderIso now))
          (toString ctx.playerId) =
          some { p.record with claim := some ⟨some p.claimantTeam,
                 some p.claimantRank, some ctx.userId, some (renderIso now),
                 some ctx.originChannelId, .cnull, none⟩ }) ∧
      (r = p.claimantRank →
        QRLS.WaiverClaim.waiverclaimCmd ctx data parse renderIso now =
          (.rejected "EQUAL_PRIORITY_EXISTS", data)) := by
  intro ctx data parse renderIso now p c r hpre hclaim hrank
  refine ⟨?_, ?_, ?_, ?_⟩
  · unfold QRLS.WaiverClaim.wcPrelude at hpre
    cases hg : QRLS.WaiverClaim.wcDiscordGuards ctx with
    | some s => rw [hg] at hpre; exact Except.noConfusion hpre
    | none =>
      rw [hg] at hpre
      dsimp only at hpre
      repeat' first
      | exact Except.noConfusion hpre
      | split at hpre
      all_goals (cases hpre; assumption)
  · intro hlt
    unfold QRLS.WaiverClaim.waiverclaimCmd
    rw [hpre]
    dsimp only
    rw [hclaim]
    dsimp only
    rw [hrank]
    dsimp only [Option.getD]
    rw [if_pos hlt]
  · intro hgt
    refine ⟨?_, ?_⟩
    · unfold QRLS.WaiverClaim.waiverclaimCmd
      rw [hpre]
      dsimp only
      rw [hclaim]
      dsimp only
      rw [hrank]
      dsimp only [Option.getD]
      rw [if_neg (by omega), if_pos hgt]
    · unfold QRLS.WaiverClaim.setClaim
      exact QRLS.mapGet_mapSet_self ..
  · intro heq
    unfold QRLS.WaiverClaim.waiverclaimCmd
    rw [hpre]
    dsimp only
    rw [hclaim]
    dsimp only
    rw [hrank]
    dsimp only [Option.getD]
    rw [if_neg (by omega), if_neg (by omega)]

/-- A /waiverclaim context: captain 1 on team Sharks (waiver rank 1)
claims player 2 who is on Waivers; guards all pass. -/
def wcWitnessCtx : QRLS.WaiverClaim.WCCtx :=
  { userIsMember := true
    captainsRoleId := some 10
    transactionsCategoryId := some 20
    waiversRoleId := some 30
    userRoles := [10]
    channelIsTextOrThread := true
    baseChannelIsText := true
    baseCategoryId := some 20
    originChannelId := 99
    waiversRoleInGuild := true
    playerHasWaiversRole := true
    sheet := [["2", "x", "5", "Waivers"], ["1", "y", "5", "Sharks"]]
    orderRows := [["Sharks", "1"], ["Jets", "2"]]
    orderReadFails := false
    userId := 1
    playerId := 2 }

/-- The stored claim on player 2: team Jets at rank 2. -/
def wcWitnessClaim : QRLS.WClaim :=
  ⟨some "Jets", some 2, some 4, some "B", some 99, .cnull, none⟩

/-- The stored waiver record for player 2, expiring at time 100. -/
def wcWitnessRec : QRLS.WRecord :=
  ⟨some 7, some 2, some "R", some "E", some "T", some 3, some wcWitnessClaim⟩

/-- The waivers store holding the record of player 2. -/
def wcWitnessData : QRLS.WMap := [("2", wcWitnessRec)]

/-- The datetime parser of the witness scenario. -/
def wcWitnessParse (s : String) : Option Int :=
  if s = "E" then some 100 else none

/-- Witness for the C1 theorem: the rank-1 claim replaces the stored
rank-2 claim. -/
theorem waiverclaim_priority_witness :
    QRLS.WaiverClaim.waiverclaimCmd wcWitnessCtx wcWitnessData wcWitnessParse
      (fun _ => "NOW") 50 =
      (.replaced "Sharks" 1,
       QRLS.WaiverClaim.setClaim wcWitnessData wcWitnessRec 2 "Sharks" 1 1 99 "NOW") :=
  ((waiverclaim_priority wcWitnessCtx wcWitnessData wcWitnessParse (fun _ => "NOW") 50
      ⟨"Sharks", 1, wcWitnessRec⟩ wcWitnessClaim 2 (by rfl) rfl rfl).2.2.1
    (by decide)).1

namespace QRLS.Sub

/-- Helper: a well-formed record inside the scan list yields its
action, provided the task keys are distinct and none is pending yet. -/
theorem rehydrateAux_mem (parse : String → Option Int) (now : Int) :
    ∀ (subs : List SubRec) (scheduled : List String) (rec : SubRec)
      (g u r : Int) (eIso : String) (e : Int),
      rec ∈ subs →
      subRecFields parse rec = some (g, u, r, eIso, e) →
      (scheduled ++ subs.filterMap (computedKey parse)).Nodup →
      ((e ≤ now →
         SubAction.removeNow (keyOf rec g u r eIso) g u r ∈
           rehydrateAux parse now subs scheduled) ∧
       (now < e →
         SubAction.scheduleAt (keyOf rec g u r eIso) (now + max 0 (e - now)) g u r ∈
           rehydrateAux parse now subs scheduled)) := by
  intro subs
  induction subs with
  | nil => intro scheduled rec g u r eIso e hmem; cases hmem
  | cons rec0 rest ih =>
    intro scheduled rec g u r eIso e hmem hf hnd
    rcases List.mem_cons.mp hmem with hrec | hmem2
    · subst hrec
      have hck : computedKey parse rec = some (keyOf rec g u r eIso) := by
        simp [computedKey, hf]
      have hkey_not : keyOf rec g u r eIso ∉ scheduled := by
        intro hin
        have hsplit : List.filterMap (computedKey parse) (rec :: rest) =
            keyOf rec g u r eIso :: List.filterMap (computedKey parse) rest := by
          simp [List.filterMap_cons, hck]
        rw [hsplit] at hnd
        exact (List.disjoint_of_nodup_append hnd) hin (List.mem_cons_self _ _)
      constructor
      · intro hle
        simp only [rehydrateAux, hf]
        rw [if_pos hle]
        exact List.mem_cons_self _ _
      · intro hlt
        simp only [rehydrateAux, hf]
        rw [if_neg (by omega)]
        rw [if_neg (by simp [hkey_not])]
        exact List.mem_cons_self _ _
    · simp only [rehydrateAux]
      cases hf0 : subRecFields parse rec0 with
      | none =>
        refine ih scheduled rec g u r eIso e hmem2 hf ?_
        have hck0 : computedKey parse rec0 = none := by simp [computedKey, hf0]
        simpa [List.filterMap_cons, hck0] using hnd
      | some f0 =>
        obtain ⟨g0, u0, r0, eIso0, e0⟩ := f0
        have hck0 : computedKey parse rec0 = some (keyOf rec0 g0 u0 r0 eIso0) := by
          simp [computedKey, hf0]
        have hnd2 : (scheduled ++ keyOf rec0 g0 u0 r0 eIso0 ::
            List.filterMap (computedKey parse) rest).Nodup := by
          simpa [List.filterMap_cons, hck0] using hnd
        dsimp only
        by_cases hle0 : e0 ≤ now
        · rw [if_pos hle0]
          have hrest := ih scheduled rec g u r eIso e hmem2 hf
            (hnd2.sublist ((List.sublist_cons_self _ _).append_left scheduled))
          exact ⟨fun hle => List.mem_cons_of_mem _ (hrest.1 hle),
                 fun hlt => List.mem_cons_of_mem _ (hrest.2 hlt)⟩
        · rw [if_neg hle0]
          by_cases hcont : scheduled.contains (keyOf rec0 g0 u0 r0 eIso0)
          · exact absurd (List.mem_cons_self _ _)
              (fun hmm => (List.disjoint_of_nodup_append hnd2)
                (by simpa using hcont) hmm)
          · rw [if_neg hcont]
            have hnd3 : ((keyOf rec0 g0 u0 r0 eIso0 :: scheduled) ++
                List.filterMap (computedKey parse) rest).Nodup := by
              have hperm := (@List.perm_middle _
                (keyOf rec0 g0 u0 r0 eIso0) scheduled
                (List.filterMap (computedKey parse) rest)).nodup hnd2
              simpa using hperm
            have hrest := ih (keyOf rec0 g0 u0 r0 eIso0 :: scheduled) rec g u r eIso e
              hmem2 hf hnd3
            exact ⟨fun hle => List.mem_cons_of_mem _ (hrest.1 hle),
                   fun hlt => List.mem_cons_of_mem _ (hrest.2 hlt)⟩

end QRLS.Sub

/-- C7: sub-expiry rehydration across restart.  Every persisted record
whose conversions succeed is either removed immediately (expiry at or
before now) or scheduled to fire exactly at its expiry; the cleanup
always deletes the record, and removes the role whenever the member
still carries it and the bot may act.  Distinct task keys are assumed,
matching the per-deal key layout of subs.json. -/
theorem sub_rehydration_schedules_every_record :
    (∀ (parse : String → Option Int) (now : Int) (subs : List QRLS.Sub.SubRec)
       (rec : QRLS.Sub.SubRec) (g u r : Int) (eIso : String) (e : Int),
       rec ∈ subs →
       QRLS.Sub.subRecFields parse rec = some (g, u, r, eIso, e) →
       (subs.filterMap (QRLS.Sub.computedKey parse)).Nodup →
       ((e ≤ now →
          QRLS.Sub.SubAction.removeNow (QRLS.Sub.keyOf rec g u r eIso) g u r ∈
            QRLS.Sub.rehydrate parse now subs) ∧
        (now < e →
          QRLS.Sub.SubAction.scheduleAt (QRLS.Sub.keyOf rec g u r eIso) e g u r ∈
            QRLS.Sub.rehydrate parse now subs))) ∧
    (∀ env : QRLS.Sub.SubEnv,
       (QRLS.Sub.removeRoleAndCleanup env).recordDeleted = true) ∧
    (∀ env : QRLS.Sub.SubEnv,
       env.guildFound = true → env.roleFound = true → env.memberFound = true →
       env.memberHasRole = true → env.removePermitted = true →
       (QRLS.Sub.removeRoleAndCleanup env).roleRemoved = true) := by
  refine ⟨?_, ?_, ?_⟩
  · intro parse now subs rec g u r eIso e hmem hf hnd
    have h := QRLS.Sub.rehydrateAux_mem parse now subs [] rec g u r eIso e hmem hf
      (by simpa using hnd)
    refine ⟨h.1, fun hlt => ?_⟩
    have he : now + max 0 (e - now) = e := by
      rw [max_eq_right (by omega : (0 : Int) ≤ e - now)]
      omega
    have h2 := h.2 hlt
    rw [he] at h2
    exact h2
  · intro env
    unfold QRLS.Sub.removeRoleAndCleanup
    split_ifs <;> rfl
  · intro env h1 h2 h3 h4 h5
    simp [QRLS.Sub.removeRoleAndCleanup, h1, h2, h3, h4, h5]

/-- Witness for the C7 theorem: a single already-expired persisted sub
record gets an immediate removal task, and the cleanup on a fully
available environment removes the role and deletes the record. -/
theorem sub_rehydration_witness :
    QRLS.Sub.SubAction.removeNow "1:2:3:E" 1 2 3 ∈
      QRLS.Sub.rehydrate (fun s => if s = "E" then some 100 else none) 200
        [⟨some 1, some 2, some 3, some "E", none⟩] ∧
    (QRLS.Sub.removeRoleAndCleanup ⟨true, true, true, true, true⟩).recordDeleted = true ∧
    (QRLS.Sub.removeRoleAndCleanup ⟨true, true, true, true, true⟩).roleRemoved = true :=
  ⟨(sub_rehydration_schedules_every_record.1
      (fun s => if s = "E" then some 100 else none) 200
      [⟨some 1, some 2, some 3, some "E", none⟩]
      ⟨some 1, some 2, some 3, some "E", none⟩ 1 2 3 "E" 100
      (by decide) (by decide) (by decide)).1 (by decide),
   sub_rehydration_schedules_every_record.2.1 ⟨true, true, true, true, true⟩,
   sub_rehydration_schedules_every_record.2.2 ⟨true, true, true, true, true⟩
     rfl rfl rfl rfl rfl⟩

namespace QRLS

/-- A key absent from the association list looks up to none. -/
theorem mapGet_eq_none_of_not_mem (l : WMap) (key : String)
    (h : key ∉ l.map Prod.fst) : mapGet l key = none := by
  unfold mapGet
  rw [List.find?_eq_none.mpr]
  intro kv hkv
  simp only [decide_eq_true_eq]
  intro hk
  exact h (List.mem_map.mpr ⟨kv, hkv, hk⟩)

end QRLS

namespace QRLS.WaiverClaim

open QRLS

/-- The keys surviving a pass of the expiration loop come from the
input mapping. -/
theorem expirationsPass_keys_subset (sheet : Sheet) (roleEnvOf : Int → RoleEnv)
    (guildKnown : Int → Bool) (promptDeliverable : Int → Bool)
    (parse : String → Option Int) (renderIso : Int → String) (now : Int) :
    ∀ data : WMap,
      ((expirationsPass sheet roleEnvOf guildKnown promptDeliverable parse
          renderIso now data).1.map Prod.fst) ⊆ data.map Prod.fst := by
  intro data
  induction data with
  | nil => simp [expirationsPass]
  | cons kv rest ih =>
    obtain ⟨key, rec⟩ := kv
    simp only [expirationsPass]
    cases hstep : expireStep sheet roleEnvOf guildKnown promptDeliverable parse
        renderIso now rec with
    | mk kept evs =>
      cases hrest : expirationsPass sheet roleEnvOf guildKnown promptDeliverable parse
          renderIso now rest with
      | mk restData restEvs =>
        have ih2 : restData.map Prod.fst ⊆ rest.map Prod.fst := by
          rw [hrest] at ih; exact ih
        cases kept with
        | none =>
          dsimp only
          intro x hx
          exact List.mem_cons_of_mem _ (ih2 hx)
        | some r2 =>
          dsimp only
          intro x hx
          simp only [List.map_cons, List.mem_cons] at hx
          rcases hx with h | h
          · simp [h]
          · exact List.mem_cons_of_mem _ (ih2 h)

end QRLS.WaiverClaim

namespace QRLS

/-- Lookup at the head key. -/
theorem mapGet_cons_self (k : String) (r : WRecord) (l : WMap) :
    mapGet ((k, r) :: l) k = some r := by
  simp [mapGet, List.find?]

/-- Lookup skips a head with a different key. -/
theorem mapGet_cons_ne (k k2 : String) (r : WRecord) (l : WMap)
    (h : ¬ k = k2) : mapGet ((k, r) :: l) k2 = mapGet l k2 := by
  simp only [mapGet, List.find?]
  rw [show (decide (k = k2)) = false by simp [h]]

end QRLS

namespace QRLS.WaiverClaim

open QRLS

/-- One loop step on an expired, well-formed record that either has no
claim or a validly-shaped declined claim: it attempts the finalize and
pops the record exactly when the finalize succeeded. -/
theorem expireStep_finalizes (sheet : Sheet) (roleEnvOf : Int → RoleEnv)
    (guildKnown : Int → Bool) (promptDeliverable : Int → Bool)
    (parse : String → Option Int) (renderIso : Int → String) (now : Int)
    (rec : WRecord) (g p e : Int)
    (hg : rec.guild_id = some g) (hp : rec.player_id = some p)
    (hgk : guildKnown g = true)
    (he : parse (rec.expires_at.getD "") = some e) (hle : e ≤ now)
    (hcl : rec.claim = none ∨
      ∃ c, rec.claim = some c ∧ c.confirmed = .cbool false ∧
        c.claimed_by_id ≠ none ∧ c.origin_channel_id ≠ none ∧
        normalize (c.team_name.getD "") ≠ "") :
    expireStep sheet roleEnvOf guildKnown promptDeliverable parse renderIso now rec =
      (if (finalizeToFreeAgent sheet p (roleEnvOf p)).ok then none else some rec,
       [.finalized p (finalizeToFreeAgent sheet p (roleEnvOf p))]) := by
  unfold expireStep
  rw [he]
  dsimp only
  rw [if_neg (by omega)]
  rw [hg, hp]
  dsimp only
  rw [if_neg (by simp [hgk])]
  rcases hcl with hnone | ⟨c, hc, hconf, hby, horig, hteam⟩
  · rw [hnone]
    dsimp only
    by_cases hok : (finalizeToFreeAgent sheet p (roleEnvOf p)).ok
    · rw [if_pos hok, if_pos hok]
    · rw [if_neg hok, if_neg hok]
  · rw [hc]
    dsimp only
    rw [if_neg (not_not_intro ⟨hby, horig, hteam⟩)]
    rw [hconf]
    dsimp only
    by_cases hok : (finalizeToFreeAgent sheet p (roleEnvOf p)).ok
    · rw [if_pos hok, if_pos hok]
    · rw [if_neg hok, if_neg hok]

end QRLS.WaiverClaim

namespace QRLS.WaiverClaim

open QRLS

/-- One loop step on a record whose expiry is still in the future:
untouched, no events. -/
theorem expireStep_future (sheet : Sheet) (roleEnvOf : Int → RoleEnv)
    (guildKnown : Int → Bool) (promptDeliverable : Int → Bool)
    (parse : String → Option Int) (renderIso : Int → String) (now : Int)
    (rec : WRecord) (e : Int)
    (he : parse (rec.expires_at.getD "") = some e) (hgt : now < e) :
    expireStep sheet roleEnvOf guildKnown promptDeliverable parse renderIso now rec =
      (some rec, []) := by
  unfold expireStep
  rw [he]
  dsimp only
  rw [if_pos (by omega)]

end QRLS.WaiverClaim

/-- C4 (amended): in each pass of the expiration loop, every record
with integer guild_id and player_id, a guild the bot is in, and a
parseable expires_at at or before now, that has no claim or a declined
claim whose claimed_by_id, origin_channel_id and team_name are usable,
gets a finalize attempt; on success the record is deleted, on failure
it is kept unchanged.  Records with a future expires_at are untouched.
A successful finalize writes Free Agent into the team cell of the
player row, removes the Waivers role when held and ensures the
Free Agent role. -/
theorem expiration_pass_finalizes :
    ∀ (sheet : QRLS.Sheet) (roleEnvOf : Int → QRLS.WaiverClaim.RoleEnv)
      (guildKnown promptDeliverable : Int → Bool)
      (parse : String → Option Int) (renderIso : Int → String) (now : Int)
      (data : QRLS.WMap),
      (data.map Prod.fst).Nodup →
      ((∀ (key : String) (rec : QRLS.WRecord) (g p e : Int),
         (key, rec) ∈ data →
         rec.guild_id = some g → rec.player_id = some p →
         guildKnown g = true →
         parse (rec.expires_at.getD "") = some e → e ≤ now →
         (rec.claim = none ∨
          ∃ c, rec.claim = some c ∧ c.confirmed = .cbool false ∧
            c.claimed_by_id ≠ none ∧ c.origin_channel_id ≠ none ∧
            QRLS.normalize (c.team_name.getD "") ≠ "") →
         (QRLS.WaiverClaim.LoopEvent.finalized p
            (QRLS.WaiverClaim.finalizeToFreeAgent sheet p (roleEnvOf p)) ∈
           (QRLS.WaiverClaim.expirationsPass sheet roleEnvOf guildKnown
             promptDeliverable parse renderIso now data).2 ∧
          ((QRLS.WaiverClaim.finalizeToFreeAgent sheet p (roleEnvOf p)).ok = true →
            QRLS.mapGet (QRLS.WaiverClaim.expirationsPass sheet roleEnvOf guildKnown
              promptDeliverable parse renderIso now data).1 key = none) ∧
          ((QRLS.WaiverClaim.finalizeToFreeAgent sheet p (roleEnvOf p)).ok = false →
            QRLS.mapGet (QRLS.WaiverClaim.expirationsPass sheet roleEnvOf guildKnown
              promptDeliverable parse renderIso now data).1 key = some rec))) ∧
       (∀ (key : String) (rec : QRLS.WRecord) (e : Int),
         (key, rec) ∈ data →
         parse (rec.expires_at.getD "") = some e → now < e →
         QRLS.mapGet (QRLS.WaiverClaim.expirationsPass sheet roleEnvOf guildKnown
           promptDeliverable parse renderIso now data).1 key = some rec) ∧
       (∀ (pid : Int) (row : Nat),
         QRLS.findRowIndexByDiscordId sheet pid = some row →
         (roleEnvOf pid).memberFound = true →
         (roleEnvOf pid).roleOpsPermitted = true →
         (QRLS.WaiverClaim.finalizeToFreeAgent sheet pid (roleEnvOf pid)).ok = true ∧
         (QRLS.WaiverClaim.finalizeToFreeAgent sheet pid (roleEnvOf pid)).writes =
           [⟨row, QRLS.COL_TEAM + 1, "Free Agent"⟩] ∧
         ((roleEnvOf pid).waiversRoleInGuild = true → (roleEnvOf pid).hasWaiversRole = true →
           QRLS.WaiverClaim.RoleOp.removeWaivers ∈
             (QRLS.WaiverClaim.finalizeToFreeAgent sheet pid (roleEnvOf pid)).roleOps) ∧
         ((roleEnvOf pid).freeAgentRoleInGuild = true → (roleEnvOf pid).hasFreeAgentRole = false →
           QRLS.WaiverClaim.RoleOp.addFreeAgent ∈
             (QRLS.WaiverClaim.finalizeToFreeAgent sheet pid (roleEnvOf pid)).roleOps))) := by
  intro sheet roleEnvOf guildKnown promptDeliverable parse renderIso now data hnd
  refine ⟨?_, ?_, ?_⟩
  · induction data with
    | nil => intro key rec g p e hmem; cases hmem
    | cons kv rest ih =>
      obtain ⟨key0, rec0⟩ := kv
      intro key rec g p e hmem hg hp hgk he hle hcl
      have hnd2 : (rest.map Prod.fst).Nodup := by
        simpa using hnd.of_cons
      rcases List.mem_cons.mp hmem with hhead | htail
      · injection hhead with hk hr
        subst hk
        subst hr
        simp only [QRLS.WaiverClaim.expirationsPass]
        rw [QRLS.WaiverClaim.expireStep_finalizes sheet roleEnvOf guildKnown
          promptDeliverable parse renderIso now rec g p e hg hp hgk he hle hcl]
        cases hrest : QRLS.WaiverClaim.expirationsPass sheet roleEnvOf guildKnown
            promptDeliverable parse renderIso now rest with
        | mk restData restEvs =>
          have hsub := QRLS.WaiverClaim.expirationsPass_keys_subset sheet roleEnvOf
            guildKnown promptDeliverable parse renderIso now rest
          rw [hrest] at hsub
          have hkeynot : key ∉ restData.map Prod.fst := by
            intro hx
            have : key ∈ rest.map Prod.fst := hsub hx
            simp only [List.map_cons, List.nodup_cons] at hnd
            exact hnd.1 this
          by_cases hok : (QRLS.WaiverClaim.finalizeToFreeAgent sheet p (roleEnvOf p)).ok
          · rw [if_pos hok]
            dsimp only
            refine ⟨List.mem_cons_self _ _, fun _ => ?_, fun hbad => ?_⟩
            · exact QRLS.mapGet_eq_none_of_not_mem restData key hkeynot
            · exact absurd hbad (by simp [hok])
          · rw [if_neg hok]
            dsimp only
            refine ⟨List.mem_cons_self _ _, fun hbad => ?_, fun _ => ?_⟩
            · exact absurd hbad hok
            · exact QRLS.mapGet_cons_self key rec restData
      · have hkeys : key ∈ rest.map Prod.fst :=
          List.mem_map.mpr ⟨(key, rec), htail, rfl⟩
        have hne : ¬ key0 = key := by
          simp only [List.map_cons, List.nodup_cons] at hnd
          intro hq; rw [hq] at hnd; exact hnd.1 hkeys
        have ihres := ih hnd2 key rec g p e htail hg hp hgk he hle hcl
        simp only [QRLS.WaiverClaim.expirationsPass]
        cases hstep : QRLS.WaiverClaim.expireStep sheet roleEnvOf guildKnown
            promptDeliverable parse renderIso now rec0 with
        | mk kept evs =>
          cases hrest : QRLS.WaiverClaim.expirationsPass sheet roleEnvOf guildKnown
              promptDeliverable parse renderIso now rest with
          | mk restData restEvs =>
            rw [hrest] at ihres
            cases kept with
            | none =>
              dsimp only
              exact ⟨List.mem_append_right _ ihres.1, ihres.2.1, ihres.2.2⟩
            | some r2 =>
              dsimp only
              refine ⟨List.mem_append_right _ ihres.1, fun hok => ?_, fun hok => ?_⟩
              · rw [QRLS.mapGet_cons_ne key0 key r2 restData hne]
                exact ihres.2.1 hok
              · rw [QRLS.mapGet_cons_ne key0 key r2 restData hne]
                exact ihres.2.2 hok
  · induction data with
    | nil => intro key rec e hmem; cases hmem
    | cons kv rest ih =>
      obtain ⟨key0, rec0⟩ := kv
      intro key rec e hmem he hgt
      have hnd2 : (rest.map Prod.fst).Nodup := by
        simpa using hnd.of_cons
      rcases List.mem_cons.mp hmem with hhead | htail
      · injection hhead with hk hr
        subst hk
        subst hr
        simp only [QRLS.WaiverClaim.expirationsPass]
        rw [QRLS.WaiverClaim.expireStep_future sheet roleEnvOf guildKnown
          promptDeliverable parse renderIso now rec e he hgt]
        cases hrest : QRLS.WaiverClaim.expirationsPass sheet roleEnvOf guildKnown
            promptDeliverable parse renderIso now rest with
        | mk restData restEvs =>
          dsimp only
          exact QRLS.mapGet_cons_self key rec restData
      · have hkeys : key ∈ rest.map Prod.fst :=
          List.mem_map.mpr ⟨(key, rec), htail, rfl⟩
        have hne : ¬ key0 = key := by
          simp only [List.map_cons, List.nodup_cons] at hnd
          intro hq; rw [hq] at hnd; exact hnd.1 hkeys
        have ihres := ih hnd2 key rec e htail he hgt
        simp only [QRLS.WaiverClaim.expirationsPass]
        cases hstep : QRLS.WaiverClaim.expireStep sheet roleEnvOf guildKnown
            promptDeliverable parse renderIso now rec0 with
        | mk kept evs =>
          cases hrest : QRLS.WaiverClaim.expirationsPass sheet roleEnvOf guildKnown
              promptDeliverable parse renderIso now rest with
          | mk restData restEvs =>
            rw [hrest] at ihres
            cases kept with
            | none => exact ihres
            | some r2 =>
              dsimp only
              rw [QRLS.mapGet_cons_ne key0 key r2 restData hne]
              exact ihres
  · intro pid row hrow hmf hperm
    unfold QRLS.WaiverClaim.finalizeToFreeAgent
    rw [hrow]
    dsimp only
    rw [if_neg (by simp [hmf]), if_neg (by simp [hperm])]
    refine ⟨rfl, rfl, fun hwg hww => ?_, fun hfg hff => ?_⟩
    · refine List.mem_append_left _ ?_
      rw [if_pos ⟨hwg, hww⟩]
      exact List.mem_cons_self _ _
    · refine List.mem_append_right _ ?_
      rw [if_pos ⟨hfg, by simp [hff]⟩]
      exact List.mem_cons_self _ _

/-- Roster sheet of the C4 scenario: player 2 listed as Waivers. -/
def c4Sheet : QRLS.Sheet := [["2", "x", "5", "Waivers"]]

/-- A declined claim missing claimed_by_id and origin_channel_id (for
example written by an external edit or a partial legacy record): the
loop treats it as invalid and skips the record. -/
def c4BadClaim : QRLS.WClaim := ⟨none, none, none, none, none, .cbool false, none⟩

/-- An expired record carrying the declined but invalid claim. -/
def c4BadRec : QRLS.WRecord :=
  ⟨some 1, some 2, some "R", some "E", some "T", some 3, some c4BadClaim⟩

/-- The waivers mapping of the counterexample. -/
def c4Data : QRLS.WMap := [("2", c4BadRec)]

/-- The datetime parser of the C4 scenario: E parses to 10. -/
def c4Parse (s : String) : Option Int := if s = "E" then some 10 else none

/-- C4 counterexample: at time 20 the record of player 2 is expired and
its claim has confirmed = False, and finalization would succeed, yet
one pass of the loop emits no event and leaves the record untouched —
because the claim lacks claimed_by_id/origin_channel_id the loop skips
it before looking at confirmed.  This refutes the claim that every
expired record with a declined claim is finalized. -/
theorem expiration_pass_skips_invalid_declined_claim :
    QRLS.WaiverClaim.expirationsPass c4Sheet (fun _ => happyRoleEnv)
      (fun _ => true) (fun _ => true) c4Parse (fun _ => "TS") 20 c4Data =
      (c4Data, []) ∧
    c4Parse (c4BadRec.expires_at.getD "") = some 10 ∧
    (10 : Int) ≤ 20 ∧
    c4BadRec.claim = some c4BadClaim ∧
    c4BadClaim.confirmed = .cbool false ∧
    (QRLS.WaiverClaim.finalizeToFreeAgent c4Sheet 2 happyRoleEnv).ok = true := by
  refine ⟨?_, by decide, by decide, by decide, by decide, by decide⟩
  decide

/-- A well-formed expired record with no claim, used as the witness
input of the amended C4 theorem. -/
def c4GoodRec : QRLS.WRecord :=
  ⟨some 1, some 2, some "R", some "E", some "T", some 3, none⟩

/-- Witness for the amended C4 theorem: the expired no-claim record of
player 2 is finalized and deleted in one pass. -/
theorem expiration_pass_finalizes_witness :
    QRLS.WaiverClaim.LoopEvent.finalized 2
      (QRLS.WaiverClaim.finalizeToFreeAgent c4Sheet 2 happyRoleEnv) ∈
      (QRLS.WaiverClaim.expirationsPass c4Sheet (fun _ => happyRoleEnv)
        (fun _ => true) (fun _ => true) c4Parse (fun _ => "TS") 20
        [("2", c4GoodRec)]).2 :=
  ((expiration_pass_finalizes c4Sheet (fun _ => happyRoleEnv) (fun _ => true)
      (fun _ => true) c4Parse (fun _ => "TS") 20 [("2", c4GoodRec)]
      (by decide)).1 "2" c4GoodRec 1 2 10 (by decide) (by decide) (by decide)
      (by decide) (by decide) (by decide) (Or.inl (by decide))).1

namespace QRLS.Sub

/-- subsThreadOk accepts exactly the listed positions. -/
theorem subsThreadOk_iff_mem (rest : List LInstr) (m : Bool) :
    subsThreadOk rest m = true ↔ rest ∈ restOpts m := by
  cases m <;> simp [subsThreadOk, restOpts] <;> tauto

/-- Every holder value is enumerated. -/
theorem holder_mem (h : Option Bool) : h ∈ holderOpts := by
  rcases h with _ | (_ | _) <;> decide

/-- The step-preservation check evaluates to true. -/
theorem preserveCheck_true : preserveCheck = true := by decide

/-- The mutual-exclusion check evaluates to true. -/
theorem exclusionCheck_true : exclusionCheck = true := by decide

/-- One interleaving step preserves the position/ownership invariant. -/
theorem lstep_preserves_inv {c c2 : Cfg} (hinv : CfgInv c) (hs : LStep c c2) :
    CfgInv c2 := by
  have hall := preserveCheck_true
  simp only [preserveCheck, List.all_eq_true] at hall
  rcases hs with ⟨r1, r2, h, h2, r1n, hts⟩ | ⟨r1, r2, h, h2, r2n, hts⟩
  · obtain ⟨hi1, hi2⟩ := hinv
    have hx := hall h (holder_mem h) r1 ((subsThreadOk_iff_mem r1 _).mp hi1)
      r2 ((subsThreadOk_iff_mem r2 _).mp hi2)
    rw [Bool.and_eq_true] at hx
    have hy := hx.1
    rw [hts] at hy
    have hz : subsThreadOk r1n (decide (h2 = some false)) = true ∧
        subsThreadOk r2 (decide (h2 = some true)) = true := of_decide_eq_true hy
    exact hz
  · obtain ⟨hi1, hi2⟩ := hinv
    have hx := hall h (holder_mem h) r1 ((subsThreadOk_iff_mem r1 _).mp hi1)
      r2 ((subsThreadOk_iff_mem r2 _).mp hi2)
    rw [Bool.and_eq_true] at hx
    have hy := hx.2
    rw [hts] at hy
    have hz : subsThreadOk r1 (decide (h2 = some false)) = true ∧
        subsThreadOk r2n (decide (h2 = some true)) = true := of_decide_eq_true hy
    exact hz

/-- The invariant holds in every reachable configuration. -/
theorem reach_inv (p q : List LInstr)
    (hp : p = loadSubsProg ∨ p = saveSubsProg)
    (hq : q = loadSubsProg ∨ q = saveSubsProg) :
    ∀ c, Reach p q c → CfgInv c := by
  intro c h
  induction h with
  | refl =>
    constructor <;> rcases hp with rfl | rfl <;> rcases hq with rfl | rfl <;>
      simp [CfgInv, subsThreadOk]
  | tail hsteps hstep ih => exact lstep_preserves_inv ih hstep

/-- C8: lock discipline on subs.json. Both subs.json accessors of the
Sub cog (_load_subs and _save_subs) perform their file access only at
positive depth of the single _subs_lock, with acquire and release well
nested; the waivers.json accessors never touch any lock; the one
asyncio.Lock constructed anywhere in the repository is Sub._subs_lock;
and in the interleaving of two tasks each running a subs accessor, no
reachable configuration has both tasks inside the locked section, so
no two subs.json file accesses of the cog interleave. -/
theorem subs_lock_discipline :
    (lockedAccessesOnly loadSubsProg 0 = true ∧
     lockedAccessesOnly saveSubsProg 0 = true) ∧
    (usesLock loadWaiversProg = false ∧ usesLock saveWaiversProg = false) ∧
    programLocks = ["Sub._subs_lock"] ∧
    ∀ p q c, (p = loadSubsProg ∨ p = saveSubsProg) →
      (q = loadSubsProg ∨ q = saveSubsProg) → Reach p q c →
      ¬(inCS c.rest1 = true ∧ inCS c.rest2 = true) := by
  refine ⟨⟨by decide, by decide⟩, ⟨by decide, by decide⟩, rfl, ?_⟩
  intro p q c hp hq hr hboth
  obtain ⟨hi1, hi2⟩ := reach_inv p q hp hq c hr
  have hall := exclusionCheck_true
  simp only [exclusionCheck, List.all_eq_true] at hall
  have hx := hall c.holder (holder_mem c.holder) c.rest1
    ((subsThreadOk_iff_mem _ _).mp hi1) c.rest2 ((subsThreadOk_iff_mem _ _).mp hi2)
  rw [hboth.1, hboth.2] at hx
  simp at hx

/-- Witness: after the first task performs its acquire, the reachable
configuration has that task inside the locked section and the other
still at the start of _save_subs, and they are indeed not both inside. -/
theorem subs_lock_discipline_witness :
    ¬(inCS (Cfg.mk [LInstr.compute, LInstr.subsRead, LInstr.release]
        saveSubsProg (some false)).rest1 = true ∧
      inCS (Cfg.mk [LInstr.compute, LInstr.subsRead, LInstr.release]
        saveSubsProg (some false)).rest2 = true) :=
  subs_lock_discipline.2.2.2 loadSubsProg saveSubsProg
    (Cfg.mk [LInstr.compute, LInstr.subsRead, LInstr.release]
      saveSubsProg (some false))
    (Or.inl rfl) (Or.inr rfl)
    (Relation.ReflTransGen.single
      (LStep.left loadSubsProg saveSubsProg none (some false)
        [LInstr.compute, LInstr.subsRead, LInstr.release] (by decide)))

end QRLS.Sub
